import Mathlib

/-!
Verification of the tool-augmented conversation orchestrator
(`backend/src/services/chat/ChatOrchestrator.ts`).

The embedding translates the orchestrator and the shared data types into
executable Lean definitions.  The external collaborators (the streaming LLM
client, `JSON.parse`, and the MCP provider registry) are modelled as oracles
supplied through a `RunEnv`; everything the orchestrator itself computes is
translated from the TypeScript source.  Asynchronous timing enters only
through the per-dispatch timeout race, which is modelled by tagging each
provider outcome with the instant (in ms after dispatch) at which its promise
settles.
-/

set_option autoImplicit false

namespace MCPChat

/-- Roles of chat messages (shared/types: `Message.role`). -/
inductive Role where
  | user
  | assistant
  | system
  | tool
deriving DecidableEq, Repr

/-- Function name plus raw JSON argument text (shared/types: `ToolCall.function`). -/
structure FunctionCall where
  name : String
  arguments : String
deriving DecidableEq, Repr

/-- Completed tool call (shared/types: `ToolCall`); `type` is the literal `function`. -/
structure ToolCall where
  id : String
  type : String
  function : FunctionCall
deriving DecidableEq, Repr

/-- Chat message (shared/types: `Message`).  The source stamps `Date.now()`;
the model fixes the timestamp to 0, no claim mentions it. -/
structure Message where
  role : Role
  content : String
  tool_calls : Option (List ToolCall) := none
  tool_call_id : Option String := none
  timestamp : Nat := 0
deriving DecidableEq, Repr

/-- Tool descriptor (shared/types: `MCPTool`); `inputSchema` is never read by the
orchestrator and is omitted. -/
structure MCPTool where
  name : String
  description : String := ""
  serverId : String
deriving DecidableEq, Repr

/-- One content item of a tool result (shared/types: `MCPToolResult.content[i]`).
The arbitrary `data` payload is modelled by its `JSON.stringify(data, null, 2)`
rendering; `none` stands for an absent (or falsy) payload. -/
structure ContentItem where
  type : String
  text : Option String := none
  data : Option String := none
deriving DecidableEq, Repr

/-- Result of one provider execution (shared/types: `MCPToolResult`). -/
structure MCPToolResult where
  content : List ContentItem
  isError : Option Bool := none
deriving DecidableEq, Repr

/-- Streamed fragment of a tool-call function (ChatOrchestrator.ts,
`ToolCallDelta.function`). -/
structure FunctionDelta where
  name : Option String := none
  arguments : Option String := none
deriving DecidableEq, Repr

/-- Streamed tool-call fragment (ChatOrchestrator.ts, `interface ToolCallDelta`). -/
structure ToolCallDelta where
  index : Nat
  id : Option String := none
  type : Option String := none
  function : Option FunctionDelta := none
deriving DecidableEq, Repr

/-- JavaScript truthiness of an optional string field: `undefined` and the empty
string are falsy. -/
def truthy : Option String → Bool
  | some s => s != ""
  | none => false

/-- Buffered `function` record: once it exists both fields are strings, the
source initialises them to the empty string. -/
structure PendingFunction where
  name : String := ""
  arguments : String := ""
deriving DecidableEq, Repr

/-- Entry of the per-turn buffer `Map<number, Partial<ToolCall>>`: every field
may still be absent. -/
structure PendingToolCall where
  id : Option String := none
  type : Option String := none
  function : Option PendingFunction := none
deriving DecidableEq, Repr

/-- The record `\x7b\x7d` a fresh buffer entry starts from (line 205). -/
def emptyPending : PendingToolCall := {}

/-- The record `\x7b name: '', arguments: '' \x7d` created when a function field
first appears (lines 215 and 219). -/
def emptyPendingFunction : PendingFunction := {}

/-- JS `Map.get` on the buffer, modelled as an insertion-ordered association
list with unique keys. -/
def bufGet : List (Nat × PendingToolCall) → Nat → Option PendingToolCall
  | [], _ => none
  | (j, w) :: rest, i => if j == i then some w else bufGet rest i

/-- JS `Map.set`: an existing key keeps its position, a new key is appended. -/
def bufSet : List (Nat × PendingToolCall) → Nat → PendingToolCall → List (Nat × PendingToolCall)
  | [], i, v => [(i, v)]
  | (j, w) :: rest, i, v => if j == i then (i, v) :: rest else (j, w) :: bufSet rest i v

/-- Merge one streamed delta into a buffered record
(`accumulateStreamingResponse`, lines 207-221).  Each step mirrors one `if` of
the source: `id` and `type` are overwritten whenever the delta carries a truthy
value, a truthy `function.name` overwrites the accumulated name, and a truthy
`function.arguments` is appended to the accumulated argument text. -/
def mergeDelta (existing : PendingToolCall) (delta : ToolCallDelta) : PendingToolCall :=
  let e1 := if truthy delta.id then { existing with id := delta.id } else existing
  let e2 := if truthy delta.type then { e1 with type := delta.type } else e1
  let e3 :=
    if truthy (delta.function.bind (fun f => f.name)) then
      let f := e2.function.getD emptyPendingFunction
      { e2 with function := some { f with name := (delta.function.bind (fun f => f.name)).getD "" } }
    else e2
  if truthy (delta.function.bind (fun f => f.arguments)) then
    let f := e3.function.getD emptyPendingFunction
    let f2 := { f with arguments := f.arguments ++ (delta.function.bind (fun g => g.arguments)).getD "" }
    { e3 with function := some f2 }
  else e3

/-- Process one delta (lines 204-223): fetch `buffer.get(index) || \x7b\x7d`,
merge, store back. -/
def applyDelta (buf : List (Nat × PendingToolCall)) (delta : ToolCallDelta) :
    List (Nat × PendingToolCall) :=
  bufSet buf delta.index (mergeDelta ((bufGet buf delta.index).getD emptyPending) delta)

/-- Feed a whole fragment sequence into an initially empty buffer. -/
def buildBuffer (ds : List ToolCallDelta) : List (Nat × PendingToolCall) :=
  ds.foldl applyDelta []

/-- Truthiness filter `tc.id && tc.function?.name` of line 231. -/
def completeCall (tc : PendingToolCall) : Bool :=
  truthy tc.id && truthy (tc.function.map (fun f => f.name))

/-- Build the completed call from a buffered record that passed the filter
(lines 232-239); empty accumulated argument text falls back to the empty-object
payload `\x7b\x7d`. -/
def mkToolCall (tc : PendingToolCall) : ToolCall :=
  { id := tc.id.getD "",
    type := "function",
    function :=
      { name := (tc.function.map (fun f => f.name)).getD "",
        arguments :=
          if (tc.function.map (fun f => f.arguments)).getD "" == "" then "\x7b\x7d"
          else (tc.function.map (fun f => f.arguments)).getD "" } }

/-- Finalisation (lines 230-239): keep the buffered records with a truthy id and
function name, in insertion order, and build the completed calls. -/
def finalizeBuffer (buf : List (Nat × PendingToolCall)) : List ToolCall :=
  ((buf.map (fun p => p.2)).filter completeCall).map mkToolCall

/-- One event of the LLM stream (shared/types: `StreamChunk`).  `tool_call`
holds the deltas already normalised to a list: the source wraps a single delta
into a one-element array (lines 200-202). -/
structure Chunk where
  type : String
  content : Option String := none
  tool_call : Option (List ToolCallDelta) := none
deriving DecidableEq, Repr

/-- Events yielded by `chatWithTools` to its caller. -/
inductive Event where
  | content (s : String)
  | toolExecutionStart (toolName : String) (toolCallId : String)
  | toolExecutionResult (toolName : String) (toolCallId : String) (isError : Bool)
  | error (msg : String)
  | done
deriving DecidableEq, Repr

/-- State of `accumulateStreamingResponse` plus the content events it has
yielded so far. -/
structure AccumState where
  contentBuffer : String := ""
  toolCallsBuffer : List (Nat × PendingToolCall) := []
  finishReason : String := "stop"
  events : List Event := []
deriving DecidableEq, Repr

/-- Process one stream chunk (lines 191-227): truthy content is buffered and
re-emitted immediately; a present `tool_call` payload is folded into the buffer
and forces the finish reason to `tool_calls`. -/
def stepChunk (st : AccumState) (chunk : Chunk) : AccumState :=
  let st1 :=
    if chunk.type == "content" && truthy chunk.content then
      { st with
          contentBuffer := st.contentBuffer ++ chunk.content.getD "",
          events := st.events ++ [Event.content (chunk.content.getD "")] }
    else st
  if chunk.type == "tool_call" && chunk.tool_call.isSome then
    { st1 with
        toolCallsBuffer := (chunk.tool_call.getD []).foldl applyDelta st1.toolCallsBuffer,
        finishReason := "tool_calls" }
  else st1

/-- Return value of one model turn (ChatOrchestrator.ts,
`interface AccumulatedResponse`). -/
structure AccumulatedResponse where
  assistantMessage : Message
  toolCalls : List ToolCall
  finishReason : String
deriving DecidableEq, Repr

/-- Initial collector state (lines 185-187): empty content buffer, empty tool
buffer, finish reason `stop`, nothing yielded yet. -/
def initialAccumState : AccumState := {}

/-- One full model turn (lines 181-253): fold the chunks, finalise the buffer and
build the assistant message, whose `tool_calls` field is omitted when the list is
empty (line 244).  The first component is the list of content events the
generator yielded while streaming. -/
def accumulateStreamingResponse (chunks : List Chunk) : List Event × AccumulatedResponse :=
  let st := chunks.foldl stepChunk initialAccumState
  let toolCalls := finalizeBuffer st.toolCallsBuffer
  (st.events,
   { assistantMessage :=
       { role := Role.assistant,
         content := st.contentBuffer,
         tool_calls := if 0 < toolCalls.length then some toolCalls else none,
         tool_call_id := none,
         timestamp := 0 },
     toolCalls := toolCalls,
     finishReason := st.finishReason })

/-- Outcome of one provider execution (`MCPService.executeTool`), tagged with the
instant (ms after dispatch) at which the returned promise settles; `never`
models a promise that never settles. -/
inductive ProvOutcome where
  | resolves (t : Nat) (result : MCPToolResult)
  | rejects (t : Nat) (msg : String)
  | never
deriving Repr

/-- Hard iteration ceiling (line 6). -/
def MAX_ITERATIONS : Nat := 10

/-- Per-dispatch timeout in ms (line 7). -/
def TOOL_EXECUTION_TIMEOUT : Nat := 30000

/-- Behaviour of the model stream on one iteration: either a complete stream of
chunks, or a stream that yields `before` and then raises `msg`. -/
inductive TurnInput where
  | chunks (cs : List Chunk)
  | streamError (before : List Chunk) (msg : String)

/-- External collaborators of one run: the model stream consumed on iteration n
(1-based), `JSON.parse` on raw argument text (ok carries the parsed payload,
error carries the exception message), and the provider registry keyed by
serverId, tool name and parsed payload. -/
structure RunEnv where
  turn : Nat → TurnInput
  parse : String → Except String String
  prov : String → String → String → ProvOutcome

/-- One tool execution without the timeout guard (`executeToolCall`,
lines 286-312), returning the settle time and settled value of the promise, or
`none` when it never settles.  The tool lookup and the argument parsing are
synchronous, hence settle at 0. -/
def executeToolCall (toolCall : ToolCall) (availableTools : List MCPTool)
    (parse : String → Except String String)
    (prov : String → String → String → ProvOutcome) :
    Option (Nat × Except String MCPToolResult) :=
  let toolName := toolCall.function.name
  match availableTools.find? (fun t => t.name == toolName) with
  | none => some (0, Except.error ("Tool \x27" ++ toolName ++ "\x27 not found"))
  | some tool =>
    match parse toolCall.function.arguments with
    | Except.error m => some (0, Except.error ("Invalid tool arguments: " ++ m))
    | Except.ok args =>
      match prov tool.serverId toolName args with
      | ProvOutcome.resolves t r => some (t, Except.ok r)
      | ProvOutcome.rejects t m => some (t, Except.error m)
      | ProvOutcome.never => none

/-- Timeout rejection message (line 268). -/
def timeoutMessage : String :=
  "Tool execution timeout after " ++ toString TOOL_EXECUTION_TIMEOUT ++ "ms"

/-- Race of the execution against the 30000 ms timer (`executeToolCallWithTimeout`,
lines 262-277): the execution settles the race iff it settles strictly before
the timer fires; a never-settling execution loses; the losing promise is left
running, nothing cancels it. -/
def executeToolCallWithTimeout (toolCall : ToolCall) (availableTools : List MCPTool)
    (parse : String → Except String String)
    (prov : String → String → String → ProvOutcome) :
    Except String MCPToolResult :=
  match executeToolCall toolCall availableTools parse prov with
  | some (t, res) => if t < TOOL_EXECUTION_TIMEOUT then res else Except.error timeoutMessage
  | none => Except.error timeoutMessage

/-- Render one content item (lines 322-329): a text item with truthy text
contributes its text, otherwise a present data payload contributes its
rendering, otherwise the item contributes the empty string. -/
def renderContentItem (item : ContentItem) : String :=
  if item.type == "text" && truthy item.text then item.text.getD ""
  else
    match item.data with
    | some d => d
    | none => ""

/-- Flattening of a tool result (`formatToolResult`, lines 320-333): render every
item, drop the empty contributions, join with a blank line. -/
def formatToolResult (result : MCPToolResult) : String :=
  String.intercalate "\n\n" ((result.content.map renderContentItem).filter (fun s => s != ""))

/-- Transcript text of a failed dispatch (line 126). -/
def toolErrorContent (toolName msg : String) : String :=
  "Error executing " ++ toolName ++ ": " ++ msg

/-- The transcript message one dispatch appends: success path lines 104-109,
failure path lines 124-129. -/
def toolMessageFor (env : RunEnv) (tools : List MCPTool) (toolCall : ToolCall) : Message :=
  match executeToolCallWithTimeout toolCall tools env.parse env.prov with
  | Except.ok result =>
    { role := Role.tool,
      content := formatToolResult result,
      tool_call_id := some toolCall.id,
      timestamp := 0 }
  | Except.error m =>
    { role := Role.tool,
      content := toolErrorContent toolCall.function.name m,
      tool_call_id := some toolCall.id,
      timestamp := 0 }

/-- The `tool_execution_result` event of one dispatch: success path lines 114-119
with flag `result.isError || false`, failure path lines 132-137 with flag true. -/
def toolResultEventFor (env : RunEnv) (tools : List MCPTool) (toolCall : ToolCall) : Event :=
  match executeToolCallWithTimeout toolCall tools env.parse env.prov with
  | Except.ok result =>
    Event.toolExecutionResult toolCall.function.name toolCall.id (result.isError.getD false)
  | Except.error _ =>
    Event.toolExecutionResult toolCall.function.name toolCall.id true

/-- Sequential dispatch of the completed calls of one turn (lines 91-139): for
each call in order, a start event, the dispatch, one appended tool message and a
result event. -/
def dispatchCalls (env : RunEnv) (tools : List MCPTool) :
    List ToolCall → List Message → List Event × List Message
  | [], hist => ([], hist)
  | toolCall :: rest, hist =>
    let r := dispatchCalls env tools rest (hist ++ [toolMessageFor env tools toolCall])
    (Event.toolExecutionStart toolCall.function.name toolCall.id
       :: toolResultEventFor env tools toolCall :: r.1,
     r.2)

/-- How the orchestration loop stopped: final answer, stream failure, or loop
guard exhausted after a tool turn at the ceiling. -/
inductive EndKind where
  | normalAnswer
  | streamErrored
  | ranOut
deriving DecidableEq, Repr

/-- Observable outcome of a run: the yielded events, the final internal
conversation history, the number of model invocations performed (the source's
`iteration` counter, incremented once per opened model stream), and how the loop
stopped. -/
structure RunResult where
  events : List Event
  history : List Message
  iterations : Nat
  ended : EndKind
deriving DecidableEq, Repr

/-- The while loop of lines 73-157.  `remaining` counts the iterations the guard
`iteration < MAX_ITERATIONS` still allows; each pass increments the iteration
counter, consumes one model stream, and either dispatches the completed calls
and loops (line 86: finish reason `tool_calls` and a non-empty call list), or
appends the final assistant message and stops; a stream failure yields an error
event and breaks (lines 149-156). -/
def chatLoop (env : RunEnv) (tools : List MCPTool) :
    Nat → Nat → List Message → RunResult
  | 0, iteration, hist =>
    { events := [], history := hist, iterations := iteration, ended := EndKind.ranOut }
  | remaining + 1, iteration, hist =>
    match env.turn (iteration + 1) with
    | TurnInput.streamError before msg =>
      { events := (accumulateStreamingResponse before).1 ++ [Event.error msg],
        history := hist, iterations := iteration + 1, ended := EndKind.streamErrored }
    | TurnInput.chunks cs =>
      let acc := (accumulateStreamingResponse cs).2
      if acc.finishReason = "tool_calls" ∧ 0 < acc.toolCalls.length then
        let d := dispatchCalls env tools acc.toolCalls (hist ++ [acc.assistantMessage])
        let rest := chatLoop env tools remaining (iteration + 1) d.2
        { rest with events := (accumulateStreamingResponse cs).1 ++ d.1 ++ rest.events }
      else
        { events := (accumulateStreamingResponse cs).1,
          history := hist ++ [acc.assistantMessage],
          iterations := iteration + 1,
          ended := EndKind.normalAnswer }

/-- Safety-limit error text (line 164). -/
def maxIterationsMessage : String :=
  "Maximum tool execution iterations reached. Stopping for safety."

/-- The exported generator (`chatWithTools`, lines 58-169).  The input transcript
is copied into `conversationHistory` (line 69) and only the copy is extended;
after the loop, a reached iteration ceiling yields the safety error event
(lines 160-166), and a final done event is always yielded (line 168). -/
def chatWithTools (env : RunEnv) (messages : List Message) (tools : List MCPTool) : RunResult :=
  let conversationHistory := messages
  let r := chatLoop env tools MAX_ITERATIONS 0 conversationHistory
  let evs :=
    if MAX_ITERATIONS ≤ r.iterations then r.events ++ [Event.error maxIterationsMessage]
    else r.events
  { r with events := evs ++ [Event.done] }

/-- A chunk that the source counts as an observed tool-call event
(line 199: type `tool_call` with a present payload). -/
def hasToolCallChunk (cs : List Chunk) : Bool :=
  cs.any (fun c => c.type == "tool_call" && c.tool_call.isSome)

/-- Recogniser for `tool_execution_start` events. -/
def isToolStartEvent : Event → Bool
  | Event.toolExecutionStart _ _ => true
  | _ => false

/-- Recogniser for `tool_execution_result` events. -/
def isToolResultEvent : Event → Bool
  | Event.toolExecutionResult _ _ _ => true
  | _ => false

/-- Recogniser for error events. -/
def isErrorEvent : Event → Bool
  | Event.error _ => true
  | _ => false

/-- Recogniser for content events. -/
def isContentEvent : Event → Bool
  | Event.content _ => true
  | _ => false

/-- The value the id branch of the merge writes, when the delta carries one. -/
def deltaId (d : ToolCallDelta) : Option String :=
  if truthy d.id then d.id else none

/-- The value the type branch of the merge writes, when the delta carries one. -/
def deltaType (d : ToolCallDelta) : Option String :=
  if truthy d.type then d.type else none

/-- The value the name branch of the merge writes, when the delta carries one. -/
def deltaName (d : ToolCallDelta) : Option String :=
  if truthy (d.function.bind (fun f => f.name)) then d.function.bind (fun f => f.name) else none

/-- The text the argument branch of the merge appends, when the delta carries
one. -/
def deltaArgs (d : ToolCallDelta) : Option String :=
  if truthy (d.function.bind (fun f => f.arguments)) then d.function.bind (fun f => f.arguments)
  else none

/-- Last-truthy-wins combination: the last written value if any write happened,
otherwise the previous contents. -/
def lastWins (l : List String) (o : Option String) : Option String :=
  match l.getLast? with
  | some s => some s
  | none => o

/-- The sequence of values a given field branch writes for index `i`, in stream
order. -/
def updatesFor (f : ToolCallDelta → Option String) (i : Nat) (ds : List ToolCallDelta) :
    List String :=
  (ds.filter (fun d => d.index == i)).filterMap f

/-- Folding a delta sequence into one record. -/
def mergeList (e : PendingToolCall) (ds : List ToolCallDelta) : PendingToolCall :=
  ds.foldl mergeDelta e

/-- Keys of the buffer, in insertion order. -/
def bufKeys (buf : List (Nat × PendingToolCall)) : List Nat :=
  buf.map (fun p => p.1)

/-- Effect of the name branch of the merge on the function record. -/
def applyNameDelta (d : ToolCallDelta) (f0 : Option PendingFunction) : Option PendingFunction :=
  if truthy (d.function.bind (fun f => f.name)) then
    some { f0.getD emptyPendingFunction with name := (d.function.bind (fun f => f.name)).getD "" }
  else f0

/-- Effect of the argument branch of the merge on the function record. -/
def applyArgsDelta (d : ToolCallDelta) (f0 : Option PendingFunction) : Option PendingFunction :=
  if truthy (d.function.bind (fun f => f.arguments)) then
    some { f0.getD emptyPendingFunction with
             arguments := (f0.getD emptyPendingFunction).arguments
               ++ (d.function.bind (fun f => f.arguments)).getD "" }
  else f0

/-- The record the per-field merge rule predicts for index `i` after a fragment
sequence `ds`: id and type hold the last truthy value written, the function
record holds the last truthy name (empty if arguments arrived without a name)
and the in-order concatenation of the truthy argument texts. -/
def predictedRecord (i : Nat) (ds : List ToolCallDelta) : PendingToolCall :=
  { id := (updatesFor deltaId i ds).getLast?,
    type := (updatesFor deltaType i ds).getLast?,
    function :=
      if (updatesFor deltaName i ds).isEmpty && (updatesFor deltaArgs i ds).isEmpty then none
      else
        some { name := ((updatesFor deltaName i ds).getLast?).getD "",
               arguments := String.join (updatesFor deltaArgs i ds) } }

/-- Two fragment sequences that interleave the same per-index subsequences: for
every index the fragments of that index appear identically and in the same
order, while fragments of distinct indices may be reordered arbitrarily. -/
def sameIndexStreams (ds ds' : List ToolCallDelta) : Prop :=
  ∀ i, ds.filter (fun d => d.index == i) = ds'.filter (fun d => d.index == i)

/- Concrete fixtures used by witnesses and counterexamples. -/

/-- A catalog with one tool named `f` on server `s1`. -/
def demoTools : List MCPTool := [{ name := "f", serverId := "s1" }]

/-- A parse oracle for which every argument text parses. -/
def okParse : String → Except String String := fun s => Except.ok s

/-- A provider that always resolves quickly with one text item. -/
def okProv : String → String → String → ProvOutcome :=
  fun _ _ _ => ProvOutcome.resolves 5 { content := [{ type := "text", text := some "ok" }] }

/-- A complete single-fragment tool call for tool `f`. -/
def demoDelta : ToolCallDelta :=
  { index := 0, id := some "call_1", type := some "function",
    function := some { name := some "f", arguments := some "\x7b\x7d" } }

/-- A stream chunk carrying `demoDelta`. -/
def demoToolChunk : Chunk := { type := "tool_call", tool_call := some [demoDelta] }

/-- A plain text chunk. -/
def demoContentChunk : Chunk := { type := "content", content := some "hi" }

/-- The call `demoDelta` finalises to. -/
def demoToolCall : ToolCall :=
  { id := "call_1", type := "function", function := { name := "f", arguments := "\x7b\x7d" } }

/-- Environment whose every model turn requests the `f` tool call. -/
def envAllTool : RunEnv :=
  { turn := fun _ => TurnInput.chunks [demoToolChunk], parse := okParse, prov := okProv }

/-- Environment with nine tool turns followed by a normal tenth turn. -/
def envNineThenNormal : RunEnv :=
  { turn := fun n => if n ≤ 9 then TurnInput.chunks [demoToolChunk]
                     else TurnInput.chunks [demoContentChunk],
    parse := okParse, prov := okProv }

/-- A fragment with a function name but no id: its index is dropped at
finalisation. -/
def idlessDelta : ToolCallDelta := { index := 0, function := some { name := some "f" } }

/-- A tool-call chunk whose only fragment never receives an id. -/
def idlessChunk : Chunk := { type := "tool_call", tool_call := some [idlessDelta] }

/-- Environment whose every turn streams an observed tool-call event that
finalises to the empty call list. -/
def envIdless : RunEnv :=
  { turn := fun _ => TurnInput.chunks [idlessChunk], parse := okParse, prov := okProv }

/-- Environment with one tool turn followed by normal turns. -/
def envOneToolThenNormal : RunEnv :=
  { turn := fun n => if n == 1 then TurnInput.chunks [demoToolChunk]
                     else TurnInput.chunks [demoContentChunk],
    parse := okParse, prov := okProv }

/-- Environment whose every turn is a plain final answer. -/
def envNormalOnly : RunEnv :=
  { turn := fun _ => TurnInput.chunks [demoContentChunk], parse := okParse, prov := okProv }

/-- Two fragments for the same index both carrying an id. -/
def dupIdDeltas : List ToolCallDelta :=
  [{ index := 0, id := some "a" }, { index := 0, id := some "b" }]

/-- A parse oracle that rejects the malformed text `\x7binvalid`. -/
def strictParse : String → Except String String :=
  fun s => if s == "\x7binvalid" then Except.error "Unexpected token" else Except.ok s

/-- A fragment streaming tool `f` with malformed argument text. -/
def badArgsDelta : ToolCallDelta :=
  { index := 0, id := some "call_2", type := some "function",
    function := some { name := some "f", arguments := some "\x7binvalid" } }

/-- A stream chunk carrying `badArgsDelta`. -/
def badArgsChunk : Chunk := { type := "tool_call", tool_call := some [badArgsDelta] }

/-- The call `badArgsDelta` finalises to. -/
def badArgsCall : ToolCall :=
  { id := "call_2", type := "function", function := { name := "f", arguments := "\x7binvalid" } }

/-- Environment whose first turn requests the malformed call and whose later
turns answer normally. -/
def envBadArgs : RunEnv :=
  { turn := fun n => if n == 1 then TurnInput.chunks [badArgsChunk]
                     else TurnInput.chunks [demoContentChunk],
    parse := strictParse, prov := okProv }

/-- Fragments for two distinct indices, and the same fragments with the two
indices swapped. -/
def twoIndexDeltas : List ToolCallDelta :=
  [demoDelta, { index := 1, id := some "x", function := some { name := some "g" } }]

/-- The cross-index reordering of `twoIndexDeltas`. -/
def twoIndexDeltasSwapped : List ToolCallDelta :=
  [{ index := 1, id := some "x", function := some { name := some "g" } }, demoDelta]

/-! ### Buffer lemmas -/

theorem bufGet_bufSet_same (buf : List (Nat × PendingToolCall)) (i : Nat) (v : PendingToolCall) :
    bufGet (bufSet buf i v) i = some v := by
  induction buf with
  | nil => simp [bufGet, bufSet]
  | cons p rest ih =>
    obtain ⟨j, w⟩ := p
    cases hb : (j == i) with
    | true => simp [bufSet, hb, bufGet]
    | false => simp [bufSet, hb, bufGet, ih]

theorem bufGet_bufSet_ne (buf : List (Nat × PendingToolCall)) (i j : Nat) (v : PendingToolCall)
    (h : j ≠ i) : bufGet (bufSet buf i v) j = bufGet buf j := by
  induction buf with
  | nil =>
    have : (i == j) = false := by simp [Ne.symm h]
    simp [bufGet, bufSet, this]
  | cons p rest ih =>
    obtain ⟨k, w⟩ := p
    cases hb : (k == i) with
    | true =>
      have hk : k = i := by simpa using hb
      have h1 : (i == j) = false := by simp [Ne.symm h]
      have h2 : (k == j) = false := by simp [hk, Ne.symm h]
      simp [bufSet, hb, bufGet, h1, h2]
    | false => simp [bufSet, hb, bufGet, ih]

theorem bufGet_applyDelta (buf : List (Nat × PendingToolCall)) (d : ToolCallDelta) (i : Nat) :
    bufGet (applyDelta buf d) i =
      if d.index = i then some (mergeDelta ((bufGet buf d.index).getD emptyPending) d)
      else bufGet buf i := by
  by_cases h : d.index = i
  · subst h
    simp [applyDelta, bufGet_bufSet_same]
  · simp [applyDelta, h, bufGet_bufSet_ne _ _ _ _ (Ne.symm h)]

theorem bufKeys_bufSet (buf : List (Nat × PendingToolCall)) (i : Nat) (v : PendingToolCall) :
    bufKeys (bufSet buf i v) =
      if i ∈ bufKeys buf then bufKeys buf else bufKeys buf ++ [i] := by
  induction buf with
  | nil => simp [bufKeys, bufSet]
  | cons p rest ih =>
    obtain ⟨j, w⟩ := p
    cases hb : (j == i) with
    | true =>
      have hj : j = i := by simpa using hb
      simp [bufSet, hb, bufKeys, hj]
    | false =>
      have hj : ¬ (i = j) := by
        intro h
        simp [h] at hb
      simp only [bufSet, hb, Bool.false_eq_true, if_false, bufKeys, List.map_cons,
        List.mem_cons] at ih ⊢
      rw [ih]
      by_cases hm : i ∈ rest.map (fun p => p.1)
      · simp [hm, hj]
      · simp [hm, hj]

theorem bufKeys_nodup_bufSet (buf : List (Nat × PendingToolCall)) (i : Nat) (v : PendingToolCall)
    (h : (bufKeys buf).Nodup) : (bufKeys (bufSet buf i v)).Nodup := by
  rw [bufKeys_bufSet]
  by_cases hm : i ∈ bufKeys buf
  · simpa [hm] using h
  · simp [hm, List.nodup_append, h]

theorem bufGet_eq_none_iff (buf : List (Nat × PendingToolCall)) (i : Nat) :
    bufGet buf i = none ↔ i ∉ bufKeys buf := by
  induction buf with
  | nil => simp [bufGet, bufKeys]
  | cons p rest ih =>
    obtain ⟨j, w⟩ := p
    cases hb : (j == i) with
    | true =>
      have hj : j = i := by simpa using hb
      simp [bufGet, hb, bufKeys, hj]
    | false =>
      have hj : ¬ (i = j) := by
        intro h
        simp [h] at hb
      simp [bufGet, hb, bufKeys, hj, ih, bufKeys]

theorem bufGet_of_mem (buf : List (Nat × PendingToolCall)) (p : Nat × PendingToolCall)
    (hm : p ∈ buf) (h : (bufKeys buf).Nodup) : bufGet buf p.1 = some p.2 := by
  induction buf with
  | nil => cases hm
  | cons q rest ih =>
    rcases List.mem_cons.mp hm with hq | hr
    · subst hq
      simp [bufGet]
    · have hk : p.1 ∈ bufKeys rest := List.mem_map.mpr ⟨p, hr, rfl⟩
      have h' : (q.1 :: bufKeys rest).Nodup := h
      have hq1 : q.1 ∉ bufKeys rest := (List.nodup_cons.mp h').1
      have htl : (bufKeys rest).Nodup := (List.nodup_cons.mp h').2
      have hne : (q.1 == p.1) = false := by
        simp only [beq_eq_false_iff_ne, ne_eq]
        intro hcontra
        exact hq1 (hcontra ▸ hk)
      obtain ⟨a, b⟩ := q
      simp only [bufGet, hne, Bool.false_eq_true, if_false]
      exact ih hr htl

/-! ### Merge-rule lemmas -/

theorem truthy_some_iff (s : String) : truthy (some s) = true ↔ s ≠ "" := by
  simp [truthy]

theorem truthy_of_eq_some {o : Option String} (h : truthy o = true) :
    ∃ s, o = some s ∧ s ≠ "" := by
  cases o with
  | none => simp [truthy] at h
  | some s => exact ⟨s, rfl, (truthy_some_iff s).mp h⟩

theorem mergeDelta_id (e : PendingToolCall) (d : ToolCallDelta) :
    (mergeDelta e d).id = if truthy d.id then d.id else e.id := by
  cases h1 : truthy d.id <;>
    cases h2 : truthy d.type <;>
      cases h3 : truthy (d.function.bind (fun f => f.name)) <;>
        cases h4 : truthy (d.function.bind (fun f => f.arguments)) <;>
          simp [mergeDelta, h1, h2, h3, h4]

theorem mergeDelta_type (e : PendingToolCall) (d : ToolCallDelta) :
    (mergeDelta e d).type = if truthy d.type then d.type else e.type := by
  cases h1 : truthy d.id <;>
    cases h2 : truthy d.type <;>
      cases h3 : truthy (d.function.bind (fun f => f.name)) <;>
        cases h4 : truthy (d.function.bind (fun f => f.arguments)) <;>
          simp [mergeDelta, h1, h2, h3, h4]

theorem mergeDelta_function (e : PendingToolCall) (d : ToolCallDelta) :
    (mergeDelta e d).function = applyArgsDelta d (applyNameDelta d e.function) := by
  cases h1 : truthy d.id <;>
    cases h2 : truthy d.type <;>
      cases h3 : truthy (d.function.bind (fun f => f.name)) <;>
        cases h4 : truthy (d.function.bind (fun f => f.arguments)) <;>
          simp [mergeDelta, applyNameDelta, applyArgsDelta, h1, h2, h3, h4]

theorem mergeList_nil (e : PendingToolCall) : mergeList e [] = e := rfl

theorem mergeList_cons (e : PendingToolCall) (d : ToolCallDelta) (ds : List ToolCallDelta) :
    mergeList e (d :: ds) = mergeList (mergeDelta e d) ds := rfl

theorem mergeList_concat (e : PendingToolCall) (ds : List ToolCallDelta) (d : ToolCallDelta) :
    mergeList e (ds ++ [d]) = mergeDelta (mergeList e ds) d := by
  simp [mergeList, List.foldl_append]

/-! ### Localising the buffer fold to one index -/

theorem bufGet_foldl (ds : List ToolCallDelta) :
    ∀ (buf : List (Nat × PendingToolCall)) (i : Nat),
      bufGet (ds.foldl applyDelta buf) i =
        if (ds.filter (fun d => d.index == i)).isEmpty then bufGet buf i
        else some (mergeList ((bufGet buf i).getD emptyPending)
                     (ds.filter (fun d => d.index == i))) := by
  induction ds with
  | nil => intro buf i; simp
  | cons d rest ih =>
    intro buf i
    by_cases h : d.index = i
    · have hb : (d.index == i) = true := by simp [h]
      have hget : bufGet (applyDelta buf d) i =
          some (mergeDelta ((bufGet buf i).getD emptyPending) d) := by
        rw [bufGet_applyDelta, if_pos h, h]
      have hfe : List.filter (fun d => d.index == i) (d :: rest)
          = d :: rest.filter (fun d => d.index == i) := by
        simp [List.filter_cons, hb]
      rw [List.foldl_cons, ih (applyDelta buf d) i, hfe]
      by_cases hrest : (rest.filter (fun d => d.index == i)).isEmpty
      · have hnil : rest.filter (fun d => d.index == i) = [] := List.isEmpty_iff.mp hrest
        simp [hrest, hnil, hget, mergeList_cons, mergeList_nil]
      · simp [hrest, hget, mergeList_cons]
    · have hb : (d.index == i) = false := by simp [h]
      have hget : bufGet (applyDelta buf d) i = bufGet buf i := by
        rw [bufGet_applyDelta, if_neg h]
      have hfe : List.filter (fun d => d.index == i) (d :: rest)
          = rest.filter (fun d => d.index == i) := by
        simp [List.filter_cons, hb]
      rw [List.foldl_cons, ih (applyDelta buf d) i, hfe, hget]

theorem lastWins_none (l : List String) : lastWins l none = l.getLast? := by
  unfold lastWins
  cases l.getLast? <;> rfl

theorem join_concat (l : List String) (s : String) :
    String.join (l ++ [s]) = String.join l ++ s := by
  simp [String.join, List.foldl_append]

theorem mergeList_id (e : PendingToolCall) (ds : List ToolCallDelta) :
    (mergeList e ds).id = lastWins (ds.filterMap deltaId) e.id := by
  induction ds using List.reverseRecOn with
  | nil => simp [mergeList_nil, lastWins]
  | append_singleton ds d ih =>
    rw [mergeList_concat, mergeDelta_id, List.filterMap_append]
    cases h : truthy d.id with
    | true =>
      obtain ⟨s, hs, hs0⟩ := truthy_of_eq_some h
      have hts : truthy (some s) = true := (truthy_some_iff s).mpr hs0
      have : List.filterMap deltaId [d] = [s] := by simp [List.filterMap_cons, deltaId, h, hs, hts]
      rw [this, if_pos rfl]
      unfold lastWins
      rw [List.getLast?_concat, hs]
    | false =>
      have : List.filterMap deltaId [d] = [] := by simp [List.filterMap_cons, deltaId, h]
      rw [this, List.append_nil, if_neg (by simp [h]), ih]

theorem mergeList_type (e : PendingToolCall) (ds : List ToolCallDelta) :
    (mergeList e ds).type = lastWins (ds.filterMap deltaType) e.type := by
  induction ds using List.reverseRecOn with
  | nil => simp [mergeList_nil, lastWins]
  | append_singleton ds d ih =>
    rw [mergeList_concat, mergeDelta_type, List.filterMap_append]
    cases h : truthy d.type with
    | true =>
      obtain ⟨s, hs, hs0⟩ := truthy_of_eq_some h
      have hts : truthy (some s) = true := (truthy_some_iff s).mpr hs0
      have : List.filterMap deltaType [d] = [s] := by simp [List.filterMap_cons, deltaType, h, hs, hts]
      rw [this, if_pos rfl]
      unfold lastWins
      rw [List.getLast?_concat, hs]
    | false =>
      have : List.filterMap deltaType [d] = [] := by simp [List.filterMap_cons, deltaType, h]
      rw [this, List.append_nil, if_neg (by simp [h]), ih]

theorem mergeList_function (ds : List ToolCallDelta) :
    (mergeList emptyPending ds).function =
      if (ds.filterMap deltaName).isEmpty && (ds.filterMap deltaArgs).isEmpty then none
      else
        some { name := ((ds.filterMap deltaName).getLast?).getD "",
               arguments := String.join (ds.filterMap deltaArgs) } := by
  induction ds using List.reverseRecOn with
  | nil => simp [mergeList_nil, emptyPending]
  | append_singleton ds d ih =>
    rw [mergeList_concat, mergeDelta_function, ih, List.filterMap_append, List.filterMap_append]
    cases hn : truthy (d.function.bind (fun f => f.name)) with
    | true =>
      obtain ⟨n, hns, hn0⟩ := truthy_of_eq_some hn
      have htn : truthy (some n) = true := (truthy_some_iff n).mpr hn0
      have hone : List.filterMap deltaName [d] = [n] := by
        simp [List.filterMap_cons, deltaName, hn, hns, htn]
      cases ha : truthy (d.function.bind (fun f => f.arguments)) with
      | true =>
        obtain ⟨a, has, ha0⟩ := truthy_of_eq_some ha
        have hta : truthy (some a) = true := (truthy_some_iff a).mpr ha0
        have haone : List.filterMap deltaArgs [d] = [a] := by
          simp [List.filterMap_cons, deltaArgs, ha, has, hta]
        rw [hone, haone]
        by_cases hemp : ((ds.filterMap deltaName).isEmpty && (ds.filterMap deltaArgs).isEmpty)
            = true
        · rw [Bool.and_eq_true] at hemp
          have h1 : (ds.filterMap deltaName) = [] := List.isEmpty_iff.mp hemp.1
          have h2 : (ds.filterMap deltaArgs) = [] := List.isEmpty_iff.mp hemp.2
          simp [h1, h2, applyNameDelta, applyArgsDelta, hn, ha, hns, has, htn, hta,
            emptyPendingFunction, String.join]
        · rw [if_neg hemp,
            if_neg (by simp :
              ¬ ((ds.filterMap deltaName ++ [n]).isEmpty
                  && (ds.filterMap deltaArgs ++ [a]).isEmpty) = true)]
          simp [applyNameDelta, applyArgsDelta, hn, ha, hns, has, htn, hta,
            List.getLast?_concat, join_concat]
      | false =>
        have hanil : List.filterMap deltaArgs [d] = [] := by simp [List.filterMap_cons, deltaArgs, ha]
        rw [hone, hanil, List.append_nil]
        by_cases hemp : ((ds.filterMap deltaName).isEmpty && (ds.filterMap deltaArgs).isEmpty)
            = true
        · rw [Bool.and_eq_true] at hemp
          have h1 : (ds.filterMap deltaName) = [] := List.isEmpty_iff.mp hemp.1
          have h2 : (ds.filterMap deltaArgs) = [] := List.isEmpty_iff.mp hemp.2
          simp [h1, h2, applyNameDelta, applyArgsDelta, hn, ha, hns, htn,
            emptyPendingFunction, String.join]
        · rw [if_neg hemp,
            if_neg (by simp :
              ¬ ((ds.filterMap deltaName ++ [n]).isEmpty
                  && (ds.filterMap deltaArgs).isEmpty) = true)]
          simp [applyNameDelta, applyArgsDelta, hn, ha, hns, htn,
            List.getLast?_concat]
    | false =>
      have hnnil : List.filterMap deltaName [d] = [] := by simp [List.filterMap_cons, deltaName, hn]
      cases ha : truthy (d.function.bind (fun f => f.arguments)) with
      | true =>
        obtain ⟨a, has, ha0⟩ := truthy_of_eq_some ha
        have hta : truthy (some a) = true := (truthy_some_iff a).mpr ha0
        have haone : List.filterMap deltaArgs [d] = [a] := by
          simp [List.filterMap_cons, deltaArgs, ha, has, hta]
        rw [hnnil, haone, List.append_nil]
        by_cases hemp : ((ds.filterMap deltaName).isEmpty && (ds.filterMap deltaArgs).isEmpty)
            = true
        · rw [Bool.and_eq_true] at hemp
          have h1 : (ds.filterMap deltaName) = [] := List.isEmpty_iff.mp hemp.1
          have h2 : (ds.filterMap deltaArgs) = [] := List.isEmpty_iff.mp hemp.2
          simp [h1, h2, applyNameDelta, applyArgsDelta, hn, ha, has, hta,
            emptyPendingFunction, String.join]
        · rw [if_neg hemp,
            if_neg (by simp :
              ¬ ((ds.filterMap deltaName).isEmpty
                  && (ds.filterMap deltaArgs ++ [a]).isEmpty) = true)]
          simp [applyNameDelta, applyArgsDelta, hn, ha, has, hta, join_concat]
      | false =>
        have hanil : List.filterMap deltaArgs [d] = [] := by simp [List.filterMap_cons, deltaArgs, ha]
        rw [hnnil, hanil, List.append_nil, List.append_nil]
        simp [applyNameDelta, applyArgsDelta, hn, ha]

/-- Full per-index characterisation of the delta accumulator. -/
theorem bufGet_buildBuffer (ds : List ToolCallDelta) (i : Nat) :
    bufGet (buildBuffer ds) i =
      if (ds.filter (fun d => d.index == i)).isEmpty then none
      else some (predictedRecord i ds) := by
  have h := bufGet_foldl ds [] i
  rw [buildBuffer, h]
  by_cases hemp : (ds.filter (fun d => d.index == i)).isEmpty
  · simp [hemp, bufGet]
  · rw [if_neg hemp, if_neg hemp]
    have hbase : (bufGet ([] : List (Nat × PendingToolCall)) i).getD emptyPending
        = emptyPending := rfl
    rw [hbase]
    congr 1
    have heta : mergeList emptyPending (ds.filter (fun d => d.index == i)) =
        ⟨(mergeList emptyPending (ds.filter (fun d => d.index == i))).id,
         (mergeList emptyPending (ds.filter (fun d => d.index == i))).type,
         (mergeList emptyPending (ds.filter (fun d => d.index == i))).function⟩ := rfl
    rw [heta, mergeList_id, mergeList_type, mergeList_function]
    have hidE : emptyPending.id = none := rfl
    have htyE : emptyPending.type = none := rfl
    rw [hidE, htyE, lastWins_none, lastWins_none]
    rfl

theorem bufKeys_buildBuffer_nodup (ds : List ToolCallDelta) :
    (bufKeys (buildBuffer ds)).Nodup := by
  have main : ∀ (ds : List ToolCallDelta) (buf : List (Nat × PendingToolCall)),
      (bufKeys buf).Nodup → (bufKeys (ds.foldl applyDelta buf)).Nodup := by
    intro ds
    induction ds with
    | nil => intro buf h; simpa using h
    | cons d rest ih =>
      intro buf h
      exact ih (applyDelta buf d) (bufKeys_nodup_bufSet _ _ _ h)
  exact main ds [] (by simp [bufKeys])

theorem mem_bufKeys_buildBuffer (ds : List ToolCallDelta) (i : Nat) :
    i ∈ bufKeys (buildBuffer ds) ↔ ¬ (ds.filter (fun d => d.index == i)).isEmpty = true := by
  have h1 := bufGet_eq_none_iff (buildBuffer ds) i
  have h2 := bufGet_buildBuffer ds i
  by_cases hemp : (ds.filter (fun d => d.index == i)).isEmpty = true
  · rw [if_pos hemp] at h2
    simp [hemp, h1.mp h2]
  · rw [if_neg hemp] at h2
    have : ¬ bufGet (buildBuffer ds) i = none := by simp [h2]
    simp [hemp]
    by_contra hmem
    exact this (h1.mpr hmem)

theorem mem_updatesFor_deltaId_ne (ds : List ToolCallDelta) (i : Nat) (s : String)
    (hs : s ∈ updatesFor deltaId i ds) : s ≠ "" := by
  obtain ⟨d, _, hd⟩ := List.mem_filterMap.mp hs
  unfold deltaId at hd
  by_cases h : truthy d.id = true
  · rw [if_pos h] at hd
    obtain ⟨t, ht, ht0⟩ := truthy_of_eq_some h
    rw [ht] at hd
    cases hd
    exact ht0
  · rw [if_neg h] at hd
    cases hd

theorem mem_updatesFor_deltaName_ne (ds : List ToolCallDelta) (i : Nat) (s : String)
    (hs : s ∈ updatesFor deltaName i ds) : s ≠ "" := by
  obtain ⟨d, _, hd⟩ := List.mem_filterMap.mp hs
  unfold deltaName at hd
  by_cases h : truthy (d.function.bind (fun f => f.name)) = true
  · rw [if_pos h] at hd
    obtain ⟨t, ht, ht0⟩ := truthy_of_eq_some h
    rw [ht] at hd
    cases hd
    exact ht0
  · rw [if_neg h] at hd
    cases hd

theorem mem_of_getLast?_eq_some {α : Type} {l : List α} {a : α}
    (h : l.getLast? = some a) : a ∈ l := by
  have hx : a ∈ l.getLast? := Option.mem_def.mpr h
  obtain ⟨hne, heq⟩ := List.mem_getLast?_eq_getLast hx
  rw [heq]
  exact List.getLast_mem hne

theorem completeCall_predictedRecord (ds : List ToolCallDelta) (i : Nat) :
    completeCall (predictedRecord i ds) =
      (!(updatesFor deltaId i ds).isEmpty && !(updatesFor deltaName i ds).isEmpty) := by
  unfold completeCall predictedRecord
  have hidPart : truthy (updatesFor deltaId i ds).getLast? = !(updatesFor deltaId i ds).isEmpty := by
    cases hL : (updatesFor deltaId i ds).getLast? with
    | none =>
      have : updatesFor deltaId i ds = [] := by
        simpa using List.getLast?_eq_none_iff.mp hL
      simp [truthy, this]
    | some s =>
      have hmem : s ∈ updatesFor deltaId i ds := mem_of_getLast?_eq_some hL
      have hne : updatesFor deltaId i ds ≠ [] := by
        intro hcon
        rw [hcon] at hmem
        cases hmem
      have hie : (updatesFor deltaId i ds).isEmpty = false := by simp [List.isEmpty_iff, hne]
      have hsb : (s != "") = true := by
        simp [mem_updatesFor_deltaId_ne ds i s hmem]
      simp [truthy, hie, hsb]
  rw [hidPart]
  by_cases hemp : ((updatesFor deltaName i ds).isEmpty && (updatesFor deltaArgs i ds).isEmpty)
      = true
  · rw [Bool.and_eq_true] at hemp
    have h1 : updatesFor deltaName i ds = [] := List.isEmpty_iff.mp hemp.1
    have h2 : updatesFor deltaArgs i ds = [] := List.isEmpty_iff.mp hemp.2
    simp [h1, h2, truthy]
  · rw [if_neg hemp]
    cases hL : (updatesFor deltaName i ds).getLast? with
    | none =>
      have hnil : updatesFor deltaName i ds = [] := by
        simpa using List.getLast?_eq_none_iff.mp hL
      simp [hnil, truthy]
    | some s =>
      have hmem : s ∈ updatesFor deltaName i ds := mem_of_getLast?_eq_some hL
      have hne : updatesFor deltaName i ds ≠ [] := by
        intro hcon
        rw [hcon] at hmem
        cases hmem
      have hie : (updatesFor deltaName i ds).isEmpty = false := by simp [List.isEmpty_iff, hne]
      have hsb : (s != "") = true := by
        simp [mem_updatesFor_deltaName_ne ds i s hmem]
      simp [hL, truthy, hie, hsb]

theorem finalize_length (buf : List (Nat × PendingToolCall)) :
    (finalizeBuffer buf).length = buf.countP (fun p => completeCall p.2) := by
  unfold finalizeBuffer
  rw [List.length_map, ← List.countP_eq_length_filter]
  rw [List.countP_map]
  rfl

theorem mem_buildBuffer_eq_predicted (ds : List ToolCallDelta) (p : Nat × PendingToolCall)
    (hp : p ∈ buildBuffer ds) : p.2 = predictedRecord p.1 ds := by
  have hg := bufGet_of_mem _ p hp (bufKeys_buildBuffer_nodup ds)
  have hchar := bufGet_buildBuffer ds p.1
  by_cases hemp : (ds.filter (fun d => d.index == p.1)).isEmpty = true
  · rw [if_pos hemp] at hchar
    rw [hchar] at hg
    cases hg
  · rw [if_neg hemp] at hchar
    rw [hchar] at hg
    exact (Option.some_inj.mp hg).symm

theorem finalize_buildBuffer_length (ds : List ToolCallDelta) :
    (finalizeBuffer (buildBuffer ds)).length =
      (bufKeys (buildBuffer ds)).countP
        (fun i => !(updatesFor deltaId i ds).isEmpty && !(updatesFor deltaName i ds).isEmpty) := by
  rw [finalize_length]
  unfold bufKeys
  rw [List.countP_map]
  apply List.countP_congr
  intro p hp
  have h := mem_buildBuffer_eq_predicted ds p hp
  rw [Function.comp_apply, h, completeCall_predictedRecord]

theorem mkToolCall_args_empty (tc : PendingToolCall)
    (h : (tc.function.map (fun f => f.arguments)).getD "" = "") :
    (mkToolCall tc).function.arguments = "\x7b\x7d" := by
  simp [mkToolCall, h]

theorem predictedRecord_congr (ds ds' : List ToolCallDelta) (hre : sameIndexStreams ds ds')
    (i : Nat) : predictedRecord i ds = predictedRecord i ds' := by
  unfold predictedRecord updatesFor
  rw [hre i]

/-- C4 (amended claim): for every fragment sequence and index, the merged record
per field satisfies: the id and kind fields are set only by fragments that carry
a truthy value, the LAST such value winning (a later truthy fragment overwrites
an earlier one, the first does not persist); the name field is overwritten by
each truthy name fragment; and the argument text is the in-order concatenation
of all truthy argument fragments for that index. -/
theorem c4_theorem (ds : List ToolCallDelta) (i : Nat) :
    bufGet (buildBuffer ds) i =
      if (ds.filter (fun d => d.index == i)).isEmpty then none
      else some
        { id := (updatesFor deltaId i ds).getLast?,
          type := (updatesFor deltaType i ds).getLast?,
          function :=
            if (updatesFor deltaName i ds).isEmpty && (updatesFor deltaArgs i ds).isEmpty
            then none
            else some { name := ((updatesFor deltaName i ds).getLast?).getD "",
                        arguments := String.join (updatesFor deltaArgs i ds) } } :=
  bufGet_buildBuffer ds i

/-- C4 counterexample: two fragments for index 0 both carry a non-empty id; the
accumulated id is the SECOND one, so the first non-empty value does not persist
as the claim states. -/
theorem c4_counterexample :
    bufGet (buildBuffer dupIdDeltas) 0 = some { id := some "b" }
    ∧ ¬ bufGet (buildBuffer dupIdDeltas) 0 = some { id := some "a" } := by
  constructor
  · decide
  · decide

/-- C5: finalisation produces one completed call per distinct index whose
accumulated record has a truthy id and function name (the buffer keys are
exactly the occurring indices, without duplicates); an index missing either
contributes nothing; a kept record whose index never received an argument
fragment yields the empty-object argument text; and both the per-index records
and the finalised call count are invariant under cross-index reordering of the
fragment stream. -/
theorem c5_theorem (ds ds' : List ToolCallDelta) (hre : sameIndexStreams ds ds') :
    (bufKeys (buildBuffer ds)).Nodup
    ∧ (∀ i, i ∈ bufKeys (buildBuffer ds) ↔ ¬ (ds.filter (fun d => d.index == i)).isEmpty = true)
    ∧ (finalizeBuffer (buildBuffer ds)).length =
        (bufKeys (buildBuffer ds)).countP
          (fun i => !(updatesFor deltaId i ds).isEmpty && !(updatesFor deltaName i ds).isEmpty)
    ∧ (∀ p ∈ buildBuffer ds, completeCall p.2 = true →
         (updatesFor deltaArgs p.1 ds).isEmpty = true →
         mkToolCall p.2 ∈ finalizeBuffer (buildBuffer ds)
         ∧ (mkToolCall p.2).function.arguments = "\x7b\x7d")
    ∧ (∀ i, bufGet (buildBuffer ds) i = bufGet (buildBuffer ds') i)
    ∧ (finalizeBuffer (buildBuffer ds)).length = (finalizeBuffer (buildBuffer ds')).length := by
  refine ⟨bufKeys_buildBuffer_nodup ds, mem_bufKeys_buildBuffer ds,
    finalize_buildBuffer_length ds, ?_, ?_, ?_⟩
  · intro p hp hcomplete hargs
    constructor
    · unfold finalizeBuffer
      apply List.mem_map.mpr
      refine ⟨p.2, ?_, rfl⟩
      apply List.mem_filter.mpr
      exact ⟨List.mem_map.mpr ⟨p, hp, rfl⟩, hcomplete⟩
    · apply mkToolCall_args_empty
      have hpr := mem_buildBuffer_eq_predicted ds p hp
      have hanil : updatesFor deltaArgs p.1 ds = [] := List.isEmpty_iff.mp hargs
      rw [hpr]
      unfold predictedRecord
      rw [hanil]
      by_cases hname : (updatesFor deltaName p.1 ds).isEmpty = true
      · simp [hname, String.join]
      · simp [hname, String.join]
  · intro i
    rw [bufGet_buildBuffer, bufGet_buildBuffer, hre i,
      predictedRecord_congr ds ds' hre i]
  · have hC : ∀ i,
        (!(updatesFor deltaId i ds).isEmpty && !(updatesFor deltaName i ds).isEmpty)
          = (!(updatesFor deltaId i ds').isEmpty && !(updatesFor deltaName i ds').isEmpty) := by
      intro i
      unfold updatesFor
      rw [hre i]
    have hperm : List.Perm (bufKeys (buildBuffer ds)) (bufKeys (buildBuffer ds')) := by
      apply (List.perm_ext_iff_of_nodup (bufKeys_buildBuffer_nodup ds)
        (bufKeys_buildBuffer_nodup ds')).mpr
      intro i
      rw [mem_bufKeys_buildBuffer, mem_bufKeys_buildBuffer, hre i]
    rw [finalize_buildBuffer_length, finalize_buildBuffer_length]
    rw [hperm.countP_eq]
    apply List.countP_congr
    intro i _
    rw [hC i]

/-- C5 witness: a two-index fragment stream and its cross-index reordering
satisfy the reordering hypothesis and the conclusion. -/
theorem c5_witness :
    sameIndexStreams twoIndexDeltas twoIndexDeltasSwapped
    ∧ ((bufKeys (buildBuffer twoIndexDeltas)).Nodup
    ∧ (∀ i, i ∈ bufKeys (buildBuffer twoIndexDeltas)
         ↔ ¬ (twoIndexDeltas.filter (fun d => d.index == i)).isEmpty = true)
    ∧ (finalizeBuffer (buildBuffer twoIndexDeltas)).length =
        (bufKeys (buildBuffer twoIndexDeltas)).countP
          (fun i => !(updatesFor deltaId i twoIndexDeltas).isEmpty
            && !(updatesFor deltaName i twoIndexDeltas).isEmpty)
    ∧ (∀ p ∈ buildBuffer twoIndexDeltas, completeCall p.2 = true →
         (updatesFor deltaArgs p.1 twoIndexDeltas).isEmpty = true →
         mkToolCall p.2 ∈ finalizeBuffer (buildBuffer twoIndexDeltas)
         ∧ (mkToolCall p.2).function.arguments = "\x7b\x7d")
    ∧ (∀ i, bufGet (buildBuffer twoIndexDeltas) i = bufGet (buildBuffer twoIndexDeltasSwapped) i)
    ∧ (finalizeBuffer (buildBuffer twoIndexDeltas)).length
        = (finalizeBuffer (buildBuffer twoIndexDeltasSwapped)).length) := by
  have hre : sameIndexStreams twoIndexDeltas twoIndexDeltasSwapped := by
    intro i
    match i with
    | 0 => rfl
    | 1 => rfl
    | (n + 2) => rfl
  exact ⟨hre, c5_theorem twoIndexDeltas twoIndexDeltasSwapped hre⟩

/-! ### Collector lemmas -/

theorem stepChunk_events (st : AccumState) (c : Chunk) :
    (stepChunk st c).events =
      if (c.type == "content" && truthy c.content) = true
      then st.events ++ [Event.content (c.content.getD "")]
      else st.events := by
  by_cases h1 : (c.type == "content" && truthy c.content) = true <;>
    by_cases h2 : (c.type == "tool_call" && c.tool_call.isSome) = true <;>
      simp [stepChunk, h1, h2]

theorem stepChunk_finishReason (st : AccumState) (c : Chunk) :
    (stepChunk st c).finishReason =
      if (c.type == "tool_call" && c.tool_call.isSome) = true then "tool_calls"
      else st.finishReason := by
  by_cases h1 : (c.type == "content" && truthy c.content) = true <;>
    by_cases h2 : (c.type == "tool_call" && c.tool_call.isSome) = true <;>
      simp [stepChunk, h1, h2]

theorem stepChunk_buffer (st : AccumState) (c : Chunk) :
    (stepChunk st c).toolCallsBuffer =
      if (c.type == "tool_call" && c.tool_call.isSome) = true
      then (c.tool_call.getD []).foldl applyDelta st.toolCallsBuffer
      else st.toolCallsBuffer := by
  by_cases h1 : (c.type == "content" && truthy c.content) = true <;>
    by_cases h2 : (c.type == "tool_call" && c.tool_call.isSome) = true <;>
      simp [stepChunk, h1, h2]

theorem foldl_stepChunk_events_mem (cs : List Chunk) :
    ∀ (st : AccumState) (e : Event),
      e ∈ (cs.foldl stepChunk st).events → e ∈ st.events ∨ isContentEvent e = true := by
  induction cs with
  | nil => intro st e h; exact Or.inl h
  | cons c rest ih =>
    intro st e h
    rcases ih (stepChunk st c) e h with h' | h'
    · rw [stepChunk_events] at h'
      by_cases hc : (c.type == "content" && truthy c.content) = true
      · rw [if_pos hc] at h'
        rcases List.mem_append.mp h' with hl | hr
        · exact Or.inl hl
        · right
          have : e = Event.content (c.content.getD "") := by simpa using hr
          rw [this]
          rfl
      · rw [if_neg hc] at h'
        exact Or.inl h'
    · exact Or.inr h'

theorem accum_events_content (cs : List Chunk) (e : Event)
    (h : e ∈ (accumulateStreamingResponse cs).1) : isContentEvent e = true := by
  have hmem : e ∈ (cs.foldl stepChunk initialAccumState).events := h
  rcases foldl_stepChunk_events_mem cs initialAccumState e hmem with h' | h'
  · cases h'
  · exact h'

theorem foldl_no_tool (cs : List Chunk) (h : hasToolCallChunk cs = false) :
    ∀ st : AccumState,
      (cs.foldl stepChunk st).finishReason = st.finishReason
      ∧ (cs.foldl stepChunk st).toolCallsBuffer = st.toolCallsBuffer := by
  induction cs with
  | nil => intro st; exact ⟨rfl, rfl⟩
  | cons c rest ih =>
    intro st
    have hc : (c.type == "tool_call" && c.tool_call.isSome) = false := by
      by_contra hcon
      have : (c.type == "tool_call" && c.tool_call.isSome) = true := by
        cases hx : (c.type == "tool_call" && c.tool_call.isSome)
        · exact absurd hx hcon
        · rfl
      have : hasToolCallChunk (c :: rest) = true := by
        unfold hasToolCallChunk
        simp [List.any_cons, this]
      rw [h] at this
      cases this
    have hrest : hasToolCallChunk rest = false := by
      unfold hasToolCallChunk at h ⊢
      rw [List.any_cons] at h
      exact (Bool.or_eq_false_iff.mp h).2
    have ihst := ih hrest (stepChunk st c)
    constructor
    · rw [List.foldl_cons, ihst.1, stepChunk_finishReason, if_neg (by simp [hc])]
    · rw [List.foldl_cons, ihst.2, stepChunk_buffer, if_neg (by simp [hc])]

theorem accum_of_no_tool (cs : List Chunk) (h : hasToolCallChunk cs = false) :
    (accumulateStreamingResponse cs).2.finishReason = "stop"
    ∧ (accumulateStreamingResponse cs).2.toolCalls = [] := by
  have hfold := foldl_no_tool cs h initialAccumState
  constructor
  · show (cs.foldl stepChunk initialAccumState).finishReason = "stop"
    rw [hfold.1]
    rfl
  · show finalizeBuffer (cs.foldl stepChunk initialAccumState).toolCallsBuffer = []
    rw [hfold.2]
    rfl

theorem foldl_reason_tool (cs : List Chunk) :
    ∀ st : AccumState,
      (st.finishReason = "tool_calls"
        ∨ cs.any (fun c => c.type == "tool_call" && c.tool_call.isSome) = true) →
      (cs.foldl stepChunk st).finishReason = "tool_calls" := by
  induction cs with
  | nil =>
    intro st h
    rcases h with h | h
    · exact h
    · cases h
  | cons c rest ih =>
    intro st h
    rw [List.foldl_cons]
    cases hb : (c.type == "tool_call" && c.tool_call.isSome) with
    | true =>
      apply ih
      left
      rw [stepChunk_finishReason, if_pos hb]
    | false =>
      apply ih
      rcases h with h | h
      · left
        rw [stepChunk_finishReason, if_neg (by simp [hb]), h]
      · right
        rw [List.any_cons, hb] at h
        simpa using h

theorem accum_reason_of_tool (cs : List Chunk) (h : hasToolCallChunk cs = true) :
    (accumulateStreamingResponse cs).2.finishReason = "tool_calls" := by
  show (cs.foldl stepChunk initialAccumState).finishReason = "tool_calls"
  exact foldl_reason_tool cs initialAccumState (Or.inr h)

theorem accum_classification_iff (cs : List Chunk) :
    (accumulateStreamingResponse cs).2.finishReason = "tool_calls"
      ↔ hasToolCallChunk cs = true := by
  constructor
  · intro h
    cases hb : hasToolCallChunk cs with
    | true => rfl
    | false =>
      have := (accum_of_no_tool cs hb).1
      rw [h] at this
      exact absurd this (by decide)
  · exact accum_reason_of_tool cs

theorem foldl_buffer_reason (cs : List Chunk) :
    ∀ st : AccumState,
      (st.toolCallsBuffer ≠ [] → st.finishReason = "tool_calls") →
      ((cs.foldl stepChunk st).toolCallsBuffer ≠ []
        → (cs.foldl stepChunk st).finishReason = "tool_calls") := by
  induction cs with
  | nil => intro st h; exact h
  | cons c rest ih =>
    intro st h
    rw [List.foldl_cons]
    apply ih
    intro hb
    cases hc : (c.type == "tool_call" && c.tool_call.isSome) with
    | true => rw [stepChunk_finishReason, if_pos hc]
    | false =>
      rw [stepChunk_buffer, if_neg (by simp [hc])] at hb
      rw [stepChunk_finishReason, if_neg (by simp [hc])]
      exact h hb

theorem accum_toolCalls_ne_nil_reason (cs : List Chunk)
    (h : (accumulateStreamingResponse cs).2.toolCalls ≠ []) :
    (accumulateStreamingResponse cs).2.finishReason = "tool_calls" := by
  have hbuf : (cs.foldl stepChunk initialAccumState).toolCallsBuffer ≠ [] := by
    intro hcon
    apply h
    show finalizeBuffer (cs.foldl stepChunk initialAccumState).toolCallsBuffer = []
    rw [hcon]
    rfl
  exact foldl_buffer_reason cs initialAccumState (by intro h'; cases h' rfl) hbuf

theorem accum_assistant_role (cs : List Chunk) :
    (accumulateStreamingResponse cs).2.assistantMessage.role = Role.assistant := rfl

theorem accum_assistant_tool_calls (cs : List Chunk) :
    (accumulateStreamingResponse cs).2.assistantMessage.tool_calls =
      if 0 < (accumulateStreamingResponse cs).2.toolCalls.length
      then some ((accumulateStreamingResponse cs).2.toolCalls) else none := rfl

/-! ### Dispatch lemmas -/

theorem dispatchCalls_eq (env : RunEnv) (tools : List MCPTool) :
    ∀ (calls : List ToolCall) (hist : List Message),
      dispatchCalls env tools calls hist =
        (calls.flatMap (fun c => [Event.toolExecutionStart c.function.name c.id,
                                  toolResultEventFor env tools c]),
         hist ++ calls.map (toolMessageFor env tools)) := by
  intro calls
  induction calls with
  | nil => intro hist; simp [dispatchCalls]
  | cons c rest ih =>
    intro hist
    simp [dispatchCalls, ih (hist ++ [toolMessageFor env tools c])]

theorem dispatchCalls_history (env : RunEnv) (tools : List MCPTool) (calls : List ToolCall)
    (hist : List Message) :
    (dispatchCalls env tools calls hist).2 = hist ++ calls.map (toolMessageFor env tools) := by
  rw [dispatchCalls_eq]

theorem toolResultEventFor_is_result (env : RunEnv) (tools : List MCPTool) (c : ToolCall) :
    isToolResultEvent (toolResultEventFor env tools c) = true := by
  unfold toolResultEventFor
  cases executeToolCallWithTimeout c tools env.parse env.prov <;> rfl

theorem dispatch_event_kinds (env : RunEnv) (tools : List MCPTool) (calls : List ToolCall)
    (hist : List Message) (e : Event) (h : e ∈ (dispatchCalls env tools calls hist).1) :
    isToolStartEvent e = true ∨ isToolResultEvent e = true := by
  rw [dispatchCalls_eq] at h
  obtain ⟨c, _, hc⟩ := List.mem_flatMap.mp h
  rcases List.mem_cons.mp hc with h1 | h1
  · left
    rw [h1]
    rfl
  · rcases List.mem_cons.mp h1 with h2 | h2
    · right
      rw [h2]
      exact toolResultEventFor_is_result env tools c
    · cases h2

theorem content_event_shape (e : Event) (h : isContentEvent e = true) :
    (∀ m, e ≠ Event.error m) ∧ e ≠ Event.done
    ∧ isToolStartEvent e = false ∧ isToolResultEvent e = false := by
  cases e <;> simp_all [isContentEvent, isToolStartEvent, isToolResultEvent]

theorem tool_event_shape (e : Event)
    (h : isToolStartEvent e = true ∨ isToolResultEvent e = true) :
    (∀ m, e ≠ Event.error m) ∧ e ≠ Event.done ∧ isContentEvent e = false := by
  rcases h with h | h <;>
    cases e <;> simp_all [isContentEvent, isToolStartEvent, isToolResultEvent]

/-! ### Loop unfolding lemmas -/

theorem chatLoop_zero (env : RunEnv) (tools : List MCPTool) (i : Nat) (hist : List Message) :
    chatLoop env tools 0 i hist =
      { events := [], history := hist, iterations := i, ended := EndKind.ranOut } := rfl

theorem chatLoop_succ_streamError (env : RunEnv) (tools : List MCPTool) (r i : Nat)
    (hist : List Message) (before : List Chunk) (msg : String)
    (h : env.turn (i + 1) = TurnInput.streamError before msg) :
    chatLoop env tools (r + 1) i hist =
      { events := (accumulateStreamingResponse before).1 ++ [Event.error msg],
        history := hist, iterations := i + 1, ended := EndKind.streamErrored } := by
  simp only [chatLoop, h]

theorem chatLoop_succ_normal (env : RunEnv) (tools : List MCPTool) (r i : Nat)
    (hist : List Message) (cs : List Chunk)
    (h : env.turn (i + 1) = TurnInput.chunks cs)
    (hc : ¬ ((accumulateStreamingResponse cs).2.finishReason = "tool_calls"
        ∧ 0 < (accumulateStreamingResponse cs).2.toolCalls.length)) :
    chatLoop env tools (r + 1) i hist =
      { events := (accumulateStreamingResponse cs).1,
        history := hist ++ [(accumulateStreamingResponse cs).2.assistantMessage],
        iterations := i + 1, ended := EndKind.normalAnswer } := by
  simp only [chatLoop, h]
  rw [if_neg hc]

theorem chatLoop_succ_tool (env : RunEnv) (tools : List MCPTool) (r i : Nat)
    (hist : List Message) (cs : List Chunk)
    (h : env.turn (i + 1) = TurnInput.chunks cs)
    (hfr : (accumulateStreamingResponse cs).2.finishReason = "tool_calls")
    (hne : (accumulateStreamingResponse cs).2.toolCalls ≠ []) :
    chatLoop env tools (r + 1) i hist =
      { chatLoop env tools r (i + 1)
          (dispatchCalls env tools (accumulateStreamingResponse cs).2.toolCalls
            (hist ++ [(accumulateStreamingResponse cs).2.assistantMessage])).2 with
        events := (accumulateStreamingResponse cs).1
          ++ (dispatchCalls env tools (accumulateStreamingResponse cs).2.toolCalls
               (hist ++ [(accumulateStreamingResponse cs).2.assistantMessage])).1
          ++ (chatLoop env tools r (i + 1)
               (dispatchCalls env tools (accumulateStreamingResponse cs).2.toolCalls
                 (hist ++ [(accumulateStreamingResponse cs).2.assistantMessage])).2).events } := by
  simp only [chatLoop, h]
  rw [if_pos ⟨hfr, List.length_pos.mpr hne⟩]

/-! ### Aggregate loop lemmas -/

theorem chatLoop_history (env : RunEnv) (tools : List MCPTool) :
    ∀ (r i : Nat) (hist : List Message),
      ∃ suf, (chatLoop env tools r i hist).history = hist ++ suf := by
  intro r
  induction r with
  | zero =>
    intro i hist
    exact ⟨[], by simp [chatLoop_zero]⟩
  | succ r ih =>
    intro i hist
    cases hturn : env.turn (i + 1) with
    | streamError before msg =>
      refine ⟨[], ?_⟩
      rw [chatLoop_succ_streamError env tools r i hist before msg hturn]
      simp
    | chunks cs =>
      by_cases hc : ((accumulateStreamingResponse cs).2.finishReason = "tool_calls"
          ∧ 0 < (accumulateStreamingResponse cs).2.toolCalls.length)
      · have hne : (accumulateStreamingResponse cs).2.toolCalls ≠ [] := by
          intro hcon
          rw [hcon] at hc
          exact absurd hc.2 (by simp)
        rw [chatLoop_succ_tool env tools r i hist cs hturn hc.1 hne]
        have harg : (dispatchCalls env tools (accumulateStreamingResponse cs).2.toolCalls
              (hist ++ [(accumulateStreamingResponse cs).2.assistantMessage])).2
            = hist ++ [(accumulateStreamingResponse cs).2.assistantMessage]
              ++ (accumulateStreamingResponse cs).2.toolCalls.map (toolMessageFor env tools) := by
          rw [dispatchCalls_history]
        obtain ⟨suf, hsuf⟩ := ih (i + 1)
          (hist ++ [(accumulateStreamingResponse cs).2.assistantMessage]
            ++ (accumulateStreamingResponse cs).2.toolCalls.map (toolMessageFor env tools))
        refine ⟨[(accumulateStreamingResponse cs).2.assistantMessage]
          ++ (accumulateStreamingResponse cs).2.toolCalls.map (toolMessageFor env tools)
          ++ suf, ?_⟩
        show (chatLoop env tools r (i + 1) _).history = _
        rw [harg, hsuf]
        simp [List.append_assoc]
      · rw [chatLoop_succ_normal env tools r i hist cs hturn hc]
        exact ⟨[(accumulateStreamingResponse cs).2.assistantMessage], rfl⟩

theorem chatLoop_iterations_ge (env : RunEnv) (tools : List MCPTool) :
    ∀ (r i : Nat) (hist : List Message), i ≤ (chatLoop env tools r i hist).iterations := by
  intro r
  induction r with
  | zero =>
    intro i hist
    rw [chatLoop_zero]
  | succ r ih =>
    intro i hist
    cases hturn : env.turn (i + 1) with
    | streamError before msg =>
      rw [chatLoop_succ_streamError env tools r i hist before msg hturn]
      exact Nat.le_succ i
    | chunks cs =>
      by_cases hc : ((accumulateStreamingResponse cs).2.finishReason = "tool_calls"
          ∧ 0 < (accumulateStreamingResponse cs).2.toolCalls.length)
      · have hne : (accumulateStreamingResponse cs).2.toolCalls ≠ [] := by
          intro hcon
          rw [hcon] at hc
          exact absurd hc.2 (by simp)
        rw [chatLoop_succ_tool env tools r i hist cs hturn hc.1 hne]
        exact Nat.le_trans (Nat.le_succ i) (ih (i + 1) _)
      · rw [chatLoop_succ_normal env tools r i hist cs hturn hc]
        exact Nat.le_succ i

theorem chatLoop_iterations_pos (env : RunEnv) (tools : List MCPTool) (r i : Nat)
    (hist : List Message) (hr : 0 < r) :
    i + 1 ≤ (chatLoop env tools r i hist).iterations := by
  cases r with
  | zero => cases hr
  | succ r =>
    cases hturn : env.turn (i + 1) with
    | streamError before msg =>
      rw [chatLoop_succ_streamError env tools r i hist before msg hturn]
    | chunks cs =>
      by_cases hc : ((accumulateStreamingResponse cs).2.finishReason = "tool_calls"
          ∧ 0 < (accumulateStreamingResponse cs).2.toolCalls.length)
      · have hne : (accumulateStreamingResponse cs).2.toolCalls ≠ [] := by
          intro hcon
          rw [hcon] at hc
          exact absurd hc.2 (by simp)
        rw [chatLoop_succ_tool env tools r i hist cs hturn hc.1 hne]
        exact chatLoop_iterations_ge env tools r (i + 1) _
      · rw [chatLoop_succ_normal env tools r i hist cs hturn hc]

theorem chatLoop_done_error (env : RunEnv) (tools : List MCPTool) :
    ∀ (r i : Nat) (hist : List Message),
      (Event.done ∉ (chatLoop env tools r i hist).events)
      ∧ ((∃ m, Event.error m ∈ (chatLoop env tools r i hist).events)
          ↔ (chatLoop env tools r i hist).ended = EndKind.streamErrored) := by
  intro r
  induction r with
  | zero =>
    intro i hist
    rw [chatLoop_zero]
    constructor
    · simp
    · simp
  | succ r ih =>
    intro i hist
    cases hturn : env.turn (i + 1) with
    | streamError before msg =>
      rw [chatLoop_succ_streamError env tools r i hist before msg hturn]
      constructor
      · intro hmem
        rcases List.mem_append.mp hmem with h | h
        · have := accum_events_content before _ h
          exact absurd this (by simp [isContentEvent])
        · simp at h
      · constructor
        · intro _
          rfl
        · intro _
          exact ⟨msg, List.mem_append.mpr (Or.inr (by simp))⟩
    | chunks cs =>
      by_cases hc : ((accumulateStreamingResponse cs).2.finishReason = "tool_calls"
          ∧ 0 < (accumulateStreamingResponse cs).2.toolCalls.length)
      · have hne : (accumulateStreamingResponse cs).2.toolCalls ≠ [] := by
          intro hcon
          rw [hcon] at hc
          exact absurd hc.2 (by simp)
        rw [chatLoop_succ_tool env tools r i hist cs hturn hc.1 hne]
        obtain ⟨ihd, ihe⟩ := ih (i + 1)
          ((dispatchCalls env tools (accumulateStreamingResponse cs).2.toolCalls
            (hist ++ [(accumulateStreamingResponse cs).2.assistantMessage])).2)
        constructor
        · intro hmem
          rcases List.mem_append.mp hmem with hmem | hrest
          · rcases List.mem_append.mp hmem with hcont | hdisp
            · have := accum_events_content cs _ hcont
              exact absurd this (by simp [isContentEvent])
            · have := dispatch_event_kinds env tools _ _ _ hdisp
              exact (tool_event_shape _ this).2.1 rfl
          · exact ihd hrest
        · constructor
          · intro ⟨m, hm⟩
            rcases List.mem_append.mp hm with hm | hrest
            · rcases List.mem_append.mp hm with hcont | hdisp
              · have := accum_events_content cs _ hcont
                exact absurd this (by simp [isContentEvent])
              · have := dispatch_event_kinds env tools _ _ _ hdisp
                exact absurd rfl ((tool_event_shape _ this).1 m)
            · exact ihe.mp ⟨m, hrest⟩
          · intro hend
            obtain ⟨m, hm⟩ := ihe.mpr hend
            exact ⟨m, List.mem_append.mpr (Or.inr hm)⟩
      · rw [chatLoop_succ_normal env tools r i hist cs hturn hc]
        constructor
        · intro hmem
          have := accum_events_content cs _ hmem
          exact absurd this (by simp [isContentEvent])
        · constructor
          · intro ⟨m, hm⟩
            have := accum_events_content cs _ hm
            exact absurd this (by simp [isContentEvent])
          · intro hend
            cases hend

theorem toolMessageFor_congr (env env' : RunEnv) (tools : List MCPTool)
    (hp : env'.parse = env.parse) (hv : env'.prov = env.prov) (c : ToolCall) :
    toolMessageFor env' tools c = toolMessageFor env tools c := by
  unfold toolMessageFor
  rw [hp, hv]

theorem toolResultEventFor_congr (env env' : RunEnv) (tools : List MCPTool)
    (hp : env'.parse = env.parse) (hv : env'.prov = env.prov) (c : ToolCall) :
    toolResultEventFor env' tools c = toolResultEventFor env tools c := by
  unfold toolResultEventFor
  rw [hp, hv]

theorem dispatchCalls_congr (env env' : RunEnv) (tools : List MCPTool)
    (hp : env'.parse = env.parse) (hv : env'.prov = env.prov)
    (calls : List ToolCall) (hist : List Message) :
    dispatchCalls env' tools calls hist = dispatchCalls env tools calls hist := by
  rw [dispatchCalls_eq, dispatchCalls_eq]
  have h1 : (fun c => [Event.toolExecutionStart c.function.name c.id,
        toolResultEventFor env' tools c])
      = (fun c => [Event.toolExecutionStart c.function.name c.id,
        toolResultEventFor env tools c]) := by
    funext c
    rw [toolResultEventFor_congr env env' tools hp hv]
  have h2 : toolMessageFor env' tools = toolMessageFor env tools := by
    funext c
    exact toolMessageFor_congr env env' tools hp hv c
  rw [h1, h2]

theorem chatLoop_env_congr (env env' : RunEnv) (tools : List MCPTool)
    (hp : env'.parse = env.parse) (hv : env'.prov = env.prov) :
    ∀ (r i : Nat) (hist : List Message),
      (∀ n, i < n → n ≤ i + r → env'.turn n = env.turn n) →
      chatLoop env' tools r i hist = chatLoop env tools r i hist := by
  intro r
  induction r with
  | zero => intro i hist _; rfl
  | succ r ih =>
    intro i hist hagree
    have h1 : env'.turn (i + 1) = env.turn (i + 1) :=
      hagree (i + 1) (Nat.lt_succ_self i) (by omega)
    cases hturn : env.turn (i + 1) with
    | streamError before msg =>
      rw [chatLoop_succ_streamError env tools r i hist before msg hturn,
        chatLoop_succ_streamError env' tools r i hist before msg (h1.trans hturn)]
    | chunks cs =>
      by_cases hc : ((accumulateStreamingResponse cs).2.finishReason = "tool_calls"
          ∧ 0 < (accumulateStreamingResponse cs).2.toolCalls.length)
      · have hne : (accumulateStreamingResponse cs).2.toolCalls ≠ [] := by
          intro hcon
          rw [hcon] at hc
          exact absurd hc.2 (by simp)
        rw [chatLoop_succ_tool env tools r i hist cs hturn hc.1 hne,
          chatLoop_succ_tool env' tools r i hist cs (h1.trans hturn) hc.1 hne]
        rw [dispatchCalls_congr env env' tools hp hv]
        rw [ih (i + 1) _ (by intro n h1n h2n; exact hagree n (by omega) (by omega))]
      · rw [chatLoop_succ_normal env tools r i hist cs hturn hc,
          chatLoop_succ_normal env' tools r i hist cs (h1.trans hturn) hc]

theorem chatLoop_all_tool (env : RunEnv) (tools : List MCPTool) :
    ∀ (r i : Nat) (hist : List Message),
      (∀ n, i < n → n ≤ i + r → ∃ cs, env.turn n = TurnInput.chunks cs
        ∧ (accumulateStreamingResponse cs).2.finishReason = "tool_calls"
        ∧ (accumulateStreamingResponse cs).2.toolCalls ≠ []) →
      (chatLoop env tools r i hist).iterations = i + r
      ∧ (chatLoop env tools r i hist).ended = EndKind.ranOut := by
  intro r
  induction r with
  | zero =>
    intro i hist _
    rw [chatLoop_zero]
    exact ⟨rfl, rfl⟩
  | succ r ih =>
    intro i hist htool
    obtain ⟨cs, hturn, hfr, hne⟩ := htool (i + 1) (Nat.lt_succ_self i) (by omega)
    rw [chatLoop_succ_tool env tools r i hist cs hturn hfr hne]
    have hrec := ih (i + 1)
      ((dispatchCalls env tools (accumulateStreamingResponse cs).2.toolCalls
        (hist ++ [(accumulateStreamingResponse cs).2.assistantMessage])).2)
      (by intro n h1n h2n; exact htool n (by omega) (by omega))
    refine ⟨?_, hrec.2⟩
    show (chatLoop env tools r (i + 1) _).iterations = i + (r + 1)
    rw [hrec.1]
    omega

/-! ### Claim theorems on the orchestration loop -/

/-- C10: the caller-supplied transcript is never mutated: the run works on a
copy of the input list and only appends to it, so the final internal history is
exactly the input messages followed by a suffix of appended assistant and tool
messages, and the input list itself is untouched. -/
theorem c10_theorem (env : RunEnv) (messages : List Message) (tools : List MCPTool) :
    ∃ suf, (chatWithTools env messages tools).history = messages ++ suf := by
  obtain ⟨suf, h⟩ := chatLoop_history env tools MAX_ITERATIONS 0 messages
  refine ⟨suf, ?_⟩
  have hh : (chatWithTools env messages tools).history
      = (chatLoop env tools MAX_ITERATIONS 0 messages).history := rfl
  rw [hh, h]

/-- C2 (amended claim): every run emits exactly one done event and it is the
last event; an error event appears iff the run was aborted by a stream error or
the iteration counter reached the 10-iteration ceiling — in particular a run
whose 10th turn completes normally still emits the max-turns error event before
done. -/
theorem c2_theorem (env : RunEnv) (messages : List Message) (tools : List MCPTool) :
    ((chatWithTools env messages tools).events.count Event.done = 1)
    ∧ (∃ p, (chatWithTools env messages tools).events = p ++ [Event.done]
        ∧ Event.done ∉ p)
    ∧ ((∃ m, Event.error m ∈ (chatWithTools env messages tools).events)
        ↔ ((chatWithTools env messages tools).ended = EndKind.streamErrored
            ∨ MAX_ITERATIONS ≤ (chatWithTools env messages tools).iterations)) := by
  obtain ⟨hdone, herr⟩ := chatLoop_done_error env tools MAX_ITERATIONS 0 messages
  have hen : (chatWithTools env messages tools).ended
      = (chatLoop env tools MAX_ITERATIONS 0 messages).ended := rfl
  have hit : (chatWithTools env messages tools).iterations
      = (chatLoop env tools MAX_ITERATIONS 0 messages).iterations := rfl
  by_cases hmax : MAX_ITERATIONS ≤ (chatLoop env tools MAX_ITERATIONS 0 messages).iterations
  · have hev : (chatWithTools env messages tools).events
        = ((chatLoop env tools MAX_ITERATIONS 0 messages).events
            ++ [Event.error maxIterationsMessage]) ++ [Event.done] := by
      show (if MAX_ITERATIONS ≤ (chatLoop env tools MAX_ITERATIONS 0 messages).iterations
          then (chatLoop env tools MAX_ITERATIONS 0 messages).events
            ++ [Event.error maxIterationsMessage]
          else (chatLoop env tools MAX_ITERATIONS 0 messages).events) ++ [Event.done] = _
      rw [if_pos hmax]
    refine ⟨?_, ?_, ?_⟩
    · rw [hev]
      rw [List.count_append, List.count_append]
      have h0 : (chatLoop env tools MAX_ITERATIONS 0 messages).events.count Event.done = 0 :=
        List.count_eq_zero.mpr hdone
      rw [h0]
      decide
    · refine ⟨(chatLoop env tools MAX_ITERATIONS 0 messages).events
        ++ [Event.error maxIterationsMessage], hev, ?_⟩
      intro hmem
      rcases List.mem_append.mp hmem with h | h
      · exact hdone h
      · simp at h
    · constructor
      · intro _
        right
        rw [hit]
        exact hmax
      · intro _
        refine ⟨maxIterationsMessage, ?_⟩
        rw [hev]
        exact List.mem_append.mpr (Or.inl (List.mem_append.mpr (Or.inr (by simp))))
  · have hev : (chatWithTools env messages tools).events
        = (chatLoop env tools MAX_ITERATIONS 0 messages).events ++ [Event.done] := by
      show (if MAX_ITERATIONS ≤ (chatLoop env tools MAX_ITERATIONS 0 messages).iterations
          then (chatLoop env tools MAX_ITERATIONS 0 messages).events
            ++ [Event.error maxIterationsMessage]
          else (chatLoop env tools MAX_ITERATIONS 0 messages).events) ++ [Event.done] = _
      rw [if_neg hmax]
    refine ⟨?_, ?_, ?_⟩
    · rw [hev, List.count_append]
      have h0 : (chatLoop env tools MAX_ITERATIONS 0 messages).events.count Event.done = 0 :=
        List.count_eq_zero.mpr hdone
      rw [h0]
      decide
    · exact ⟨(chatLoop env tools MAX_ITERATIONS 0 messages).events, hev, hdone⟩
    · rw [hev, hen, hit]
      constructor
      · intro ⟨m, hm⟩
        rcases List.mem_append.mp hm with h | h
        · exact Or.inl (herr.mp ⟨m, h⟩)
        · simp at h
      · intro h
        rcases h with h | h
        · obtain ⟨m, hm⟩ := herr.mpr h
          exact ⟨m, List.mem_append.mpr (Or.inl hm)⟩
        · exact absurd h hmax

/-- C2 counterexample: a run with nine tool turns and a normal tenth turn
completes normally (the final turn is classified normal) and still contains an
error event — the max-turns error — contradicting the claim that a run ending
in a normal 10th turn emits no error event. -/
theorem c2_counterexample :
    (chatWithTools envNineThenNormal [] demoTools).ended = EndKind.normalAnswer
    ∧ Event.error maxIterationsMessage ∈ (chatWithTools envNineThenNormal [] demoTools).events := by
  constructor
  · decide
  · decide

/-- C1: when each of the 10 consecutive model turns is classified
tool_invocation with a non-empty completed-call list, the loop performs exactly
10 model invocations and stops because the iteration ceiling is exhausted, the
event stream ends with the max-turns error event immediately followed by the
terminating done event, and the run is unchanged under any modification of the
model stream beyond turn 10 — no 11th model stream is ever opened. -/
theorem c1_theorem (env : RunEnv) (messages : List Message) (tools : List MCPTool)
    (htool : ∀ n, 1 ≤ n → n ≤ MAX_ITERATIONS → ∃ cs, env.turn n = TurnInput.chunks cs
      ∧ (accumulateStreamingResponse cs).2.finishReason = "tool_calls"
      ∧ (accumulateStreamingResponse cs).2.toolCalls ≠ []) :
    (chatWithTools env messages tools).iterations = MAX_ITERATIONS
    ∧ (chatWithTools env messages tools).ended = EndKind.ranOut
    ∧ (∃ p, (chatWithTools env messages tools).events
        = p ++ [Event.error maxIterationsMessage, Event.done])
    ∧ (∀ env' : RunEnv, env'.parse = env.parse → env'.prov = env.prov →
        (∀ n, n ≤ MAX_ITERATIONS → env'.turn n = env.turn n) →
        chatWithTools env' messages tools = chatWithTools env messages tools) := by
  have hall := chatLoop_all_tool env tools MAX_ITERATIONS 0 messages
    (by intro n h1 h2; exact htool n h1 (by simpa using h2))
  have hit : (chatWithTools env messages tools).iterations
      = (chatLoop env tools MAX_ITERATIONS 0 messages).iterations := rfl
  have hen : (chatWithTools env messages tools).ended
      = (chatLoop env tools MAX_ITERATIONS 0 messages).ended := rfl
  have hiter : (chatLoop env tools MAX_ITERATIONS 0 messages).iterations = MAX_ITERATIONS := by
    rw [hall.1]
    omega
  refine ⟨by rw [hit, hiter], by rw [hen, hall.2], ?_, ?_⟩
  · have hev : (chatWithTools env messages tools).events
        = ((chatLoop env tools MAX_ITERATIONS 0 messages).events
            ++ [Event.error maxIterationsMessage]) ++ [Event.done] := by
      show (if MAX_ITERATIONS ≤ (chatLoop env tools MAX_ITERATIONS 0 messages).iterations
          then (chatLoop env tools MAX_ITERATIONS 0 messages).events
            ++ [Event.error maxIterationsMessage]
          else (chatLoop env tools MAX_ITERATIONS 0 messages).events) ++ [Event.done] = _
      rw [if_pos (by rw [hiter])]
    refine ⟨(chatLoop env tools MAX_ITERATIONS 0 messages).events, ?_⟩
    rw [hev]
    simp
  · intro env' hp hv hagree
    have hcong := chatLoop_env_congr env env' tools hp hv MAX_ITERATIONS 0 messages
      (by intro n _ h2; exact hagree n (by simpa using h2))
    show ({ chatLoop env' tools MAX_ITERATIONS 0 messages with
        events := (if MAX_ITERATIONS ≤ (chatLoop env' tools MAX_ITERATIONS 0 messages).iterations
          then (chatLoop env' tools MAX_ITERATIONS 0 messages).events
            ++ [Event.error maxIterationsMessage]
          else (chatLoop env' tools MAX_ITERATIONS 0 messages).events) ++ [Event.done] }
        : RunResult) = _
    rw [hcong]
    rfl

/-- C1 witness: the all-tool environment satisfies the hypothesis and the
conclusion at the concrete input. -/
theorem c1_witness :
    (∀ n, 1 ≤ n → n ≤ MAX_ITERATIONS → ∃ cs, envAllTool.turn n = TurnInput.chunks cs
      ∧ (accumulateStreamingResponse cs).2.finishReason = "tool_calls"
      ∧ (accumulateStreamingResponse cs).2.toolCalls ≠ [])
    ∧ ((chatWithTools envAllTool [] demoTools).iterations = MAX_ITERATIONS
      ∧ (chatWithTools envAllTool [] demoTools).ended = EndKind.ranOut
      ∧ (∃ p, (chatWithTools envAllTool [] demoTools).events
          = p ++ [Event.error maxIterationsMessage, Event.done])
      ∧ (∀ env' : RunEnv, env'.parse = envAllTool.parse → env'.prov = envAllTool.prov →
          (∀ n, n ≤ MAX_ITERATIONS → env'.turn n = envAllTool.turn n) →
          chatWithTools env' [] demoTools = chatWithTools envAllTool [] demoTools)) := by
  have htool : ∀ n, 1 ≤ n → n ≤ MAX_ITERATIONS →
      ∃ cs, envAllTool.turn n = TurnInput.chunks cs
        ∧ (accumulateStreamingResponse cs).2.finishReason = "tool_calls"
        ∧ (accumulateStreamingResponse cs).2.toolCalls ≠ [] := by
    intro n _ _
    exact ⟨[demoToolChunk], rfl, by decide, by decide⟩
  exact ⟨htool, c1_theorem envAllTool [] demoTools htool⟩

theorem toolMessageFor_role (env : RunEnv) (tools : List MCPTool) (c : ToolCall) :
    (toolMessageFor env tools c).role = Role.tool := by
  unfold toolMessageFor
  cases executeToolCallWithTimeout c tools env.parse env.prov <;> rfl

theorem toolMessageFor_id (env : RunEnv) (tools : List MCPTool) (c : ToolCall) :
    (toolMessageFor env tools c).tool_call_id = some c.id := by
  unfold toolMessageFor
  cases executeToolCallWithTimeout c tools env.parse env.prov <;> rfl

theorem toolResultEventFor_not_start (env : RunEnv) (tools : List MCPTool) (c : ToolCall) :
    isToolStartEvent (toolResultEventFor env tools c) = false := by
  unfold toolResultEventFor
  cases executeToolCallWithTimeout c tools env.parse env.prov <;> rfl

/-- C8 (amended claim): a run whose first model turn observes no tool-call event
appends exactly ONE new message — the assistant message — to the input
transcript, performs zero tool dispatches (the only events before done are the
streamed content events), uses a single model invocation, and terminates with a
done event and no error event. -/
theorem c8_theorem (env : RunEnv) (messages : List Message) (tools : List MCPTool)
    (cs : List Chunk)
    (h1 : env.turn 1 = TurnInput.chunks cs)
    (hn : hasToolCallChunk cs = false) :
    (chatWithTools env messages tools).history
      = messages ++ [(accumulateStreamingResponse cs).2.assistantMessage]
    ∧ (accumulateStreamingResponse cs).2.assistantMessage.role = Role.assistant
    ∧ (chatWithTools env messages tools).iterations = 1
    ∧ (chatWithTools env messages tools).ended = EndKind.normalAnswer
    ∧ (chatWithTools env messages tools).events
        = (accumulateStreamingResponse cs).1 ++ [Event.done]
    ∧ (∀ e ∈ (accumulateStreamingResponse cs).1, isContentEvent e = true) := by
  have hcond : ¬ ((accumulateStreamingResponse cs).2.finishReason = "tool_calls"
      ∧ 0 < (accumulateStreamingResponse cs).2.toolCalls.length) := by
    intro hcon
    have := (accum_of_no_tool cs hn).1
    rw [this] at hcon
    exact absurd hcon.1 (by decide)
  have hL : chatLoop env tools MAX_ITERATIONS 0 messages =
      { events := (accumulateStreamingResponse cs).1,
        history := messages ++ [(accumulateStreamingResponse cs).2.assistantMessage],
        iterations := 0 + 1, ended := EndKind.normalAnswer } :=
    chatLoop_succ_normal env tools 9 0 messages cs h1 hcond
  have hhist : (chatWithTools env messages tools).history
      = (chatLoop env tools MAX_ITERATIONS 0 messages).history := rfl
  have hit : (chatWithTools env messages tools).iterations
      = (chatLoop env tools MAX_ITERATIONS 0 messages).iterations := rfl
  have hen : (chatWithTools env messages tools).ended
      = (chatLoop env tools MAX_ITERATIONS 0 messages).ended := rfl
  have hev : (chatWithTools env messages tools).events
      = (if MAX_ITERATIONS ≤ (chatLoop env tools MAX_ITERATIONS 0 messages).iterations
         then (chatLoop env tools MAX_ITERATIONS 0 messages).events
           ++ [Event.error maxIterationsMessage]
         else (chatLoop env tools MAX_ITERATIONS 0 messages).events) ++ [Event.done] := rfl
  refine ⟨?_, accum_assistant_role cs, ?_, ?_, ?_, fun e he => accum_events_content cs e he⟩
  · rw [hhist, hL]
  · rw [hit, hL]
  · rw [hen, hL]
  · rw [hev, hL]
    simp [MAX_ITERATIONS]

/-- C8 counterexample: a run whose first turn is classified normal appends
exactly ONE message to the empty input transcript, not the two messages the
claim asserts (the run still ends normally with no tool activity). -/
theorem c8_counterexample :
    (chatWithTools envNormalOnly [] demoTools).history.length = 1
    ∧ ¬ (chatWithTools envNormalOnly [] demoTools).history.length = 2
    ∧ (chatWithTools envNormalOnly [] demoTools).ended = EndKind.normalAnswer := by
  refine ⟨by decide, by decide, by decide⟩

/-- C8 witness: the normal-only environment satisfies the hypotheses and the
conclusion at the concrete input. -/
theorem c8_witness :
    (envNormalOnly.turn 1 = TurnInput.chunks [demoContentChunk]
      ∧ hasToolCallChunk [demoContentChunk] = false)
    ∧ ((chatWithTools envNormalOnly [] demoTools).history
        = [] ++ [(accumulateStreamingResponse [demoContentChunk]).2.assistantMessage]
      ∧ (accumulateStreamingResponse [demoContentChunk]).2.assistantMessage.role = Role.assistant
      ∧ (chatWithTools envNormalOnly [] demoTools).iterations = 1
      ∧ (chatWithTools envNormalOnly [] demoTools).ended = EndKind.normalAnswer
      ∧ (chatWithTools envNormalOnly [] demoTools).events
          = (accumulateStreamingResponse [demoContentChunk]).1 ++ [Event.done]
      ∧ (∀ e ∈ (accumulateStreamingResponse [demoContentChunk]).1, isContentEvent e = true)) :=
  ⟨⟨rfl, by decide⟩, c8_theorem envNormalOnly [] demoTools [demoContentChunk] rfl (by decide)⟩

/-- C3 (amended claim): a turn is classified tool_invocation exactly when a
tool-call event was observed on the stream; the loop appends the assistant
message and enters the tool-dispatch phase, then loops for another model turn,
ONLY when the finalized completed-call list is non-empty; a tool_invocation
turn whose finalized list is empty instead terminates the run as a final answer,
exactly like a normal turn. -/
theorem c3_theorem (env : RunEnv) (messages : List Message) (tools : List MCPTool)
    (cs : List Chunk)
    (h1 : env.turn 1 = TurnInput.chunks cs) :
    ((accumulateStreamingResponse cs).2.finishReason = "tool_calls"
      ↔ hasToolCallChunk cs = true)
    ∧ ((accumulateStreamingResponse cs).2.toolCalls ≠ [] →
        (∃ suf, (chatWithTools env messages tools).history
          = messages ++ [(accumulateStreamingResponse cs).2.assistantMessage]
            ++ (accumulateStreamingResponse cs).2.toolCalls.map (toolMessageFor env tools)
            ++ suf)
        ∧ 2 ≤ (chatWithTools env messages tools).iterations)
    ∧ ((accumulateStreamingResponse cs).2.toolCalls = [] → hasToolCallChunk cs = true →
        (chatWithTools env messages tools).iterations = 1
        ∧ (chatWithTools env messages tools).ended = EndKind.normalAnswer
        ∧ (chatWithTools env messages tools).history
            = messages ++ [(accumulateStreamingResponse cs).2.assistantMessage]
        ∧ (chatWithTools env messages tools).events
            = (accumulateStreamingResponse cs).1 ++ [Event.done]) := by
  refine ⟨accum_classification_iff cs, ?_, ?_⟩
  · intro hne
    have hfr := accum_toolCalls_ne_nil_reason cs hne
    have hL : chatLoop env tools MAX_ITERATIONS 0 messages = _ :=
      chatLoop_succ_tool env tools 9 0 messages cs h1 hfr hne
    have hhist : (chatWithTools env messages tools).history
        = (chatLoop env tools MAX_ITERATIONS 0 messages).history := rfl
    have hit : (chatWithTools env messages tools).iterations
        = (chatLoop env tools MAX_ITERATIONS 0 messages).iterations := rfl
    constructor
    · obtain ⟨suf, hsuf⟩ := chatLoop_history env tools 9 (0 + 1)
        ((dispatchCalls env tools (accumulateStreamingResponse cs).2.toolCalls
          (messages ++ [(accumulateStreamingResponse cs).2.assistantMessage])).2)
      refine ⟨suf, ?_⟩
      rw [hhist, hL]
      show (chatLoop env tools 9 (0 + 1) _).history = _
      rw [hsuf, dispatchCalls_history]
    · rw [hit, hL]
      show 2 ≤ (chatLoop env tools 9 (0 + 1) _).iterations
      exact chatLoop_iterations_pos env tools 9 (0 + 1) _ (by decide)
  · intro hnil htc
    have hcond : ¬ ((accumulateStreamingResponse cs).2.finishReason = "tool_calls"
        ∧ 0 < (accumulateStreamingResponse cs).2.toolCalls.length) := by
      intro hcon
      rw [hnil] at hcon
      exact absurd hcon.2 (by decide)
    have hL : chatLoop env tools MAX_ITERATIONS 0 messages =
        { events := (accumulateStreamingResponse cs).1,
          history := messages ++ [(accumulateStreamingResponse cs).2.assistantMessage],
          iterations := 0 + 1, ended := EndKind.normalAnswer } :=
      chatLoop_succ_normal env tools 9 0 messages cs h1 hcond
    have hit : (chatWithTools env messages tools).iterations
        = (chatLoop env tools MAX_ITERATIONS 0 messages).iterations := rfl
    have hen : (chatWithTools env messages tools).ended
        = (chatLoop env tools MAX_ITERATIONS 0 messages).ended := rfl
    have hhist : (chatWithTools env messages tools).history
        = (chatLoop env tools MAX_ITERATIONS 0 messages).history := rfl
    have hev : (chatWithTools env messages tools).events
        = (if MAX_ITERATIONS ≤ (chatLoop env tools MAX_ITERATIONS 0 messages).iterations
           then (chatLoop env tools MAX_ITERATIONS 0 messages).events
             ++ [Event.error maxIterationsMessage]
           else (chatLoop env tools MAX_ITERATIONS 0 messages).events) ++ [Event.done] := rfl
    refine ⟨by rw [hit, hL], by rw [hen, hL], by rw [hhist, hL], ?_⟩
    rw [hev, hL]
    simp [MAX_ITERATIONS]

/-- C3 counterexample: a stream whose only event is an observed tool-call event
(classification tool_invocation) but whose fragment lacks an id finalises to the
empty call list; the run then terminates after one model invocation as a final
answer with no tool-dispatch event, instead of entering the dispatch phase and
looping as the claim states. -/
theorem c3_counterexample :
    (accumulateStreamingResponse [idlessChunk]).2.finishReason = "tool_calls"
    ∧ (accumulateStreamingResponse [idlessChunk]).2.toolCalls = []
    ∧ (chatWithTools envIdless [] demoTools).iterations = 1
    ∧ (chatWithTools envIdless [] demoTools).ended = EndKind.normalAnswer
    ∧ (chatWithTools envIdless [] demoTools).events.countP (fun e => isToolStartEvent e) = 0 := by
  refine ⟨by decide, by decide, by decide, by decide, by decide⟩

/-- C3 witness: an environment whose first turn carries one complete tool call
satisfies the hypothesis, and the conclusion holds there. -/
theorem c3_witness :
    (envOneToolThenNormal.turn 1 = TurnInput.chunks [demoToolChunk])
    ∧ (((accumulateStreamingResponse [demoToolChunk]).2.finishReason = "tool_calls"
        ↔ hasToolCallChunk [demoToolChunk] = true)
      ∧ ((accumulateStreamingResponse [demoToolChunk]).2.toolCalls ≠ [] →
          (∃ suf, (chatWithTools envOneToolThenNormal [] demoTools).history
            = [] ++ [(accumulateStreamingResponse [demoToolChunk]).2.assistantMessage]
              ++ (accumulateStreamingResponse [demoToolChunk]).2.toolCalls.map
                  (toolMessageFor envOneToolThenNormal demoTools)
              ++ suf)
          ∧ 2 ≤ (chatWithTools envOneToolThenNormal [] demoTools).iterations)
      ∧ ((accumulateStreamingResponse [demoToolChunk]).2.toolCalls = [] →
          hasToolCallChunk [demoToolChunk] = true →
          (chatWithTools envOneToolThenNormal [] demoTools).iterations = 1
          ∧ (chatWithTools envOneToolThenNormal [] demoTools).ended = EndKind.normalAnswer
          ∧ (chatWithTools envOneToolThenNormal [] demoTools).history
              = [] ++ [(accumulateStreamingResponse [demoToolChunk]).2.assistantMessage]
          ∧ (chatWithTools envOneToolThenNormal [] demoTools).events
              = (accumulateStreamingResponse [demoToolChunk]).1 ++ [Event.done])) :=
  ⟨rfl, c3_theorem envOneToolThenNormal [] demoTools [demoToolChunk] rfl⟩

theorem run_single_tool_shape (env : RunEnv) (messages : List Message) (tools : List MCPTool)
    (tc : ToolCall) (cs1 cs2 : List Chunk)
    (h1 : env.turn 1 = TurnInput.chunks cs1)
    (hacc : (accumulateStreamingResponse cs1).2.toolCalls = [tc])
    (h2 : env.turn 2 = TurnInput.chunks cs2)
    (hn2 : hasToolCallChunk cs2 = false) :
    (chatWithTools env messages tools).iterations = 2
    ∧ (chatWithTools env messages tools).ended = EndKind.normalAnswer
    ∧ (chatWithTools env messages tools).history
        = messages ++ [(accumulateStreamingResponse cs1).2.assistantMessage,
            toolMessageFor env tools tc,
            (accumulateStreamingResponse cs2).2.assistantMessage]
    ∧ (chatWithTools env messages tools).events
        = (accumulateStreamingResponse cs1).1
          ++ [Event.toolExecutionStart tc.function.name tc.id, toolResultEventFor env tools tc]
          ++ (accumulateStreamingResponse cs2).1 ++ [Event.done] := by
  have hne : (accumulateStreamingResponse cs1).2.toolCalls ≠ [] := by
    rw [hacc]
    simp
  have hfr := accum_toolCalls_ne_nil_reason cs1 hne
  have hcond2 : ¬ ((accumulateStreamingResponse cs2).2.finishReason = "tool_calls"
      ∧ 0 < (accumulateStreamingResponse cs2).2.toolCalls.length) := by
    intro hcon
    have := (accum_of_no_tool cs2 hn2).1
    rw [this] at hcon
    exact absurd hcon.1 (by decide)
  have hL1 := chatLoop_succ_tool env tools 9 0 messages cs1 h1 hfr hne
  rw [hacc] at hL1
  rw [dispatchCalls_eq env tools [tc]
    (messages ++ [(accumulateStreamingResponse cs1).2.assistantMessage])] at hL1
  simp only [List.flatMap_cons, List.flatMap_nil, List.map_cons, List.map_nil,
    List.append_nil] at hL1
  rw [chatLoop_succ_normal env tools 8 (0 + 1)
    (messages ++ [(accumulateStreamingResponse cs1).2.assistantMessage]
      ++ [toolMessageFor env tools tc]) cs2 h2 hcond2] at hL1
  have hL : chatLoop env tools MAX_ITERATIONS 0 messages = _ := hL1
  have hit : (chatWithTools env messages tools).iterations
      = (chatLoop env tools MAX_ITERATIONS 0 messages).iterations := rfl
  have hen : (chatWithTools env messages tools).ended
      = (chatLoop env tools MAX_ITERATIONS 0 messages).ended := rfl
  have hhist : (chatWithTools env messages tools).history
      = (chatLoop env tools MAX_ITERATIONS 0 messages).history := rfl
  have hev : (chatWithTools env messages tools).events
      = (if MAX_ITERATIONS ≤ (chatLoop env tools MAX_ITERATIONS 0 messages).iterations
         then (chatLoop env tools MAX_ITERATIONS 0 messages).events
           ++ [Event.error maxIterationsMessage]
         else (chatLoop env tools MAX_ITERATIONS 0 messages).events) ++ [Event.done] := rfl
  refine ⟨?_, ?_, ?_, ?_⟩
  · rw [hit, hL]
  · rw [hen, hL]
  · rw [hhist, hL]
    simp
  · rw [hev, hL]
    simp [MAX_ITERATIONS]

theorem events_countP_start (env : RunEnv) (tools : List MCPTool) (tc : ToolCall)
    (cs1 cs2 : List Chunk) :
    ((accumulateStreamingResponse cs1).1
      ++ [Event.toolExecutionStart tc.function.name tc.id, toolResultEventFor env tools tc]
      ++ (accumulateStreamingResponse cs2).1 ++ [Event.done]).countP
        (fun e => isToolStartEvent e) = 1
    ∧ ((accumulateStreamingResponse cs1).1
      ++ [Event.toolExecutionStart tc.function.name tc.id, toolResultEventFor env tools tc]
      ++ (accumulateStreamingResponse cs2).1 ++ [Event.done]).countP
        (fun e => isToolResultEvent e) = 1 := by
  have hc1 : ∀ e ∈ (accumulateStreamingResponse cs1).1,
      isToolStartEvent e = false ∧ isToolResultEvent e = false := by
    intro e he
    have hsh := content_event_shape e (accum_events_content cs1 e he)
    exact ⟨hsh.2.2.1, hsh.2.2.2⟩
  have hc2 : ∀ e ∈ (accumulateStreamingResponse cs2).1,
      isToolStartEvent e = false ∧ isToolResultEvent e = false := by
    intro e he
    have hsh := content_event_shape e (accum_events_content cs2 e he)
    exact ⟨hsh.2.2.1, hsh.2.2.2⟩
  constructor
  · rw [List.countP_append, List.countP_append, List.countP_append]
    have z1 : (accumulateStreamingResponse cs1).1.countP (fun e => isToolStartEvent e) = 0 :=
      List.countP_eq_zero.mpr (fun e he => by rw [(hc1 e he).1]; simp)
    have z2 : (accumulateStreamingResponse cs2).1.countP (fun e => isToolStartEvent e) = 0 :=
      List.countP_eq_zero.mpr (fun e he => by rw [(hc2 e he).1]; simp)
    rw [z1, z2]
    have hmid : ([Event.toolExecutionStart tc.function.name tc.id,
        toolResultEventFor env tools tc]).countP (fun e => isToolStartEvent e) = 1 := by
      rw [List.countP_cons, List.countP_cons]
      rw [toolResultEventFor_not_start]
      simp [isToolStartEvent, List.countP_nil]
    rw [hmid]
    rfl
  · rw [List.countP_append, List.countP_append, List.countP_append]
    have z1 : (accumulateStreamingResponse cs1).1.countP (fun e => isToolResultEvent e) = 0 :=
      List.countP_eq_zero.mpr (fun e he => by rw [(hc1 e he).2]; simp)
    have z2 : (accumulateStreamingResponse cs2).1.countP (fun e => isToolResultEvent e) = 0 :=
      List.countP_eq_zero.mpr (fun e he => by rw [(hc2 e he).2]; simp)
    rw [z1, z2]
    have hmid : ([Event.toolExecutionStart tc.function.name tc.id,
        toolResultEventFor env tools tc]).countP (fun e => isToolResultEvent e) = 1 := by
      rw [List.countP_cons, List.countP_cons]
      rw [toolResultEventFor_is_result]
      simp [isToolResultEvent, List.countP_nil]
    rw [hmid]
    rfl

/-- C9: in a run whose turn 1 finalises exactly one completed tool call and
whose turn 2 observes no tool-call event, exactly 3 new messages are appended in
order — the turn-1 assistant message (carrying the call), one tool message with
the call's id, the turn-2 assistant message — exactly one start/result event
pair is emitted, and in general the dispatch phase processes any call list
sequentially in order, appending one tool message per call immediately after its
dispatch. -/
theorem c9_theorem (env : RunEnv) (messages : List Message) (tools : List MCPTool)
    (tc : ToolCall) (cs1 cs2 : List Chunk)
    (h1 : env.turn 1 = TurnInput.chunks cs1)
    (hacc : (accumulateStreamingResponse cs1).2.toolCalls = [tc])
    (h2 : env.turn 2 = TurnInput.chunks cs2)
    (hn2 : hasToolCallChunk cs2 = false) :
    (chatWithTools env messages tools).history
      = messages ++ [(accumulateStreamingResponse cs1).2.assistantMessage,
          toolMessageFor env tools tc,
          (accumulateStreamingResponse cs2).2.assistantMessage]
    ∧ (accumulateStreamingResponse cs1).2.assistantMessage.tool_calls = some [tc]
    ∧ (toolMessageFor env tools tc).role = Role.tool
    ∧ (toolMessageFor env tools tc).tool_call_id = some tc.id
    ∧ (chatWithTools env messages tools).events
        = (accumulateStreamingResponse cs1).1
          ++ [Event.toolExecutionStart tc.function.name tc.id, toolResultEventFor env tools tc]
          ++ (accumulateStreamingResponse cs2).1 ++ [Event.done]
    ∧ (chatWithTools env messages tools).events.countP (fun e => isToolStartEvent e) = 1
    ∧ (chatWithTools env messages tools).events.countP (fun e => isToolResultEvent e) = 1
    ∧ (∀ (calls : List ToolCall) (hist : List Message),
        dispatchCalls env tools calls hist
          = (calls.flatMap (fun c => [Event.toolExecutionStart c.function.name c.id,
              toolResultEventFor env tools c]),
             hist ++ calls.map (toolMessageFor env tools))) := by
  obtain ⟨_, _, hhist, hev⟩ :=
    run_single_tool_shape env messages tools tc cs1 cs2 h1 hacc h2 hn2
  obtain ⟨hcnt1, hcnt2⟩ := events_countP_start env tools tc cs1 cs2
  refine ⟨hhist, ?_, toolMessageFor_role env tools tc, toolMessageFor_id env tools tc,
    hev, ?_, ?_, dispatchCalls_eq env tools⟩
  · rw [accum_assistant_tool_calls cs1, hacc]
    rfl
  · rw [hev]
    exact hcnt1
  · rw [hev]
    exact hcnt2

/-- C9 witness: the one-tool-then-normal environment satisfies the hypotheses
and the conclusion at the concrete input. -/
theorem c9_witness :
    (envOneToolThenNormal.turn 1 = TurnInput.chunks [demoToolChunk]
      ∧ (accumulateStreamingResponse [demoToolChunk]).2.toolCalls = [demoToolCall]
      ∧ envOneToolThenNormal.turn 2 = TurnInput.chunks [demoContentChunk]
      ∧ hasToolCallChunk [demoContentChunk] = false)
    ∧ ((chatWithTools envOneToolThenNormal [] demoTools).history
        = [] ++ [(accumulateStreamingResponse [demoToolChunk]).2.assistantMessage,
            toolMessageFor envOneToolThenNormal demoTools demoToolCall,
            (accumulateStreamingResponse [demoContentChunk]).2.assistantMessage]
      ∧ (accumulateStreamingResponse [demoToolChunk]).2.assistantMessage.tool_calls
          = some [demoToolCall]
      ∧ (toolMessageFor envOneToolThenNormal demoTools demoToolCall).role = Role.tool
      ∧ (toolMessageFor envOneToolThenNormal demoTools demoToolCall).tool_call_id
          = some demoToolCall.id
      ∧ (chatWithTools envOneToolThenNormal [] demoTools).events
          = (accumulateStreamingResponse [demoToolChunk]).1
            ++ [Event.toolExecutionStart demoToolCall.function.name demoToolCall.id,
                toolResultEventFor envOneToolThenNormal demoTools demoToolCall]
            ++ (accumulateStreamingResponse [demoContentChunk]).1 ++ [Event.done]
      ∧ (chatWithTools envOneToolThenNormal [] demoTools).events.countP
          (fun e => isToolStartEvent e) = 1
      ∧ (chatWithTools envOneToolThenNormal [] demoTools).events.countP
          (fun e => isToolResultEvent e) = 1
      ∧ (∀ (calls : List ToolCall) (hist : List Message),
          dispatchCalls envOneToolThenNormal demoTools calls hist
            = (calls.flatMap (fun c => [Event.toolExecutionStart c.function.name c.id,
                toolResultEventFor envOneToolThenNormal demoTools c]),
               hist ++ calls.map (toolMessageFor envOneToolThenNormal demoTools)))) :=
  ⟨⟨rfl, by decide, rfl, by decide⟩,
   c9_theorem envOneToolThenNormal [] demoTools demoToolCall [demoToolChunk]
     [demoContentChunk] rfl (by decide) rfl (by decide)⟩

/-- C6: when the dispatch of the single completed call of turn 1 fails with any
tool-level error (name lookup, argument parsing, timeout, or provider
rejection, all surfacing as an Except.error), the loop appends exactly one tool
message whose content is the human-readable string naming the tool and the
failure and whose tool_call_id is the call's id, emits a tool_execution_result
event with isError true, and continues to the next model turn: the run
finishes normally with no error event. -/
theorem c6_theorem (env : RunEnv) (messages : List Message) (tools : List MCPTool)
    (tc : ToolCall) (m : String) (cs1 cs2 : List Chunk)
    (h1 : env.turn 1 = TurnInput.chunks cs1)
    (hacc : (accumulateStreamingResponse cs1).2.toolCalls = [tc])
    (hfail : executeToolCallWithTimeout tc tools env.parse env.prov = Except.error m)
    (h2 : env.turn 2 = TurnInput.chunks cs2)
    (hn2 : hasToolCallChunk cs2 = false) :
    (chatWithTools env messages tools).iterations = 2
    ∧ (chatWithTools env messages tools).ended = EndKind.normalAnswer
    ∧ toolMessageFor env tools tc
        = { role := Role.tool, content := toolErrorContent tc.function.name m,
            tool_call_id := some tc.id, timestamp := 0 }
    ∧ toolErrorContent tc.function.name m
        = "Error executing " ++ tc.function.name ++ ": " ++ m
    ∧ (chatWithTools env messages tools).history
        = messages ++ [(accumulateStreamingResponse cs1).2.assistantMessage,
            { role := Role.tool, content := toolErrorContent tc.function.name m,
              tool_call_id := some tc.id, timestamp := 0 },
            (accumulateStreamingResponse cs2).2.assistantMessage]
    ∧ toolResultEventFor env tools tc
        = Event.toolExecutionResult tc.function.name tc.id true
    ∧ (chatWithTools env messages tools).events
        = (accumulateStreamingResponse cs1).1
          ++ [Event.toolExecutionStart tc.function.name tc.id,
              Event.toolExecutionResult tc.function.name tc.id true]
          ++ (accumulateStreamingResponse cs2).1 ++ [Event.done]
    ∧ (∀ m', Event.error m' ∉ (chatWithTools env messages tools).events) := by
  obtain ⟨hiter, hend, hhist, hev⟩ :=
    run_single_tool_shape env messages tools tc cs1 cs2 h1 hacc h2 hn2
  have hmsg : toolMessageFor env tools tc
      = { role := Role.tool, content := toolErrorContent tc.function.name m,
          tool_call_id := some tc.id, timestamp := 0 } := by
    unfold toolMessageFor
    rw [hfail]
  have hres : toolResultEventFor env tools tc
      = Event.toolExecutionResult tc.function.name tc.id true := by
    unfold toolResultEventFor
    rw [hfail]
  refine ⟨hiter, hend, hmsg, rfl, ?_, hres, ?_, ?_⟩
  · rw [hhist, hmsg]
  · rw [hev, hres]
  · intro m' hmem
    rw [hev] at hmem
    rcases List.mem_append.mp hmem with hmem | hd
    · rcases List.mem_append.mp hmem with hmem | hc2
      · rcases List.mem_append.mp hmem with hc1 | hmid
        · exact absurd rfl ((content_event_shape _ (accum_events_content cs1 _ hc1)).1 m')
        · rw [hres] at hmid
          rcases List.mem_cons.mp hmid with hx | hx
          · cases hx
          · rcases List.mem_cons.mp hx with hy | hy
            · cases hy
            · cases hy
      · exact absurd rfl ((content_event_shape _ (accum_events_content cs2 _ hc2)).1 m')
    · simp at hd

/-- C6 witness: the malformed-arguments environment (raw argument text
`\x7binvalid` rejected by JSON.parse) satisfies the hypotheses, with the
failure message of the invalid-arguments path, and the conclusion holds. -/
theorem c6_witness :
    (envBadArgs.turn 1 = TurnInput.chunks [badArgsChunk]
      ∧ (accumulateStreamingResponse [badArgsChunk]).2.toolCalls = [badArgsCall]
      ∧ executeToolCallWithTimeout badArgsCall demoTools envBadArgs.parse envBadArgs.prov
          = Except.error "Invalid tool arguments: Unexpected token"
      ∧ envBadArgs.turn 2 = TurnInput.chunks [demoContentChunk]
      ∧ hasToolCallChunk [demoContentChunk] = false)
    ∧ ((chatWithTools envBadArgs [] demoTools).iterations = 2
      ∧ (chatWithTools envBadArgs [] demoTools).ended = EndKind.normalAnswer
      ∧ toolMessageFor envBadArgs demoTools badArgsCall
          = { role := Role.tool,
              content := toolErrorContent badArgsCall.function.name
                "Invalid tool arguments: Unexpected token",
              tool_call_id := some badArgsCall.id, timestamp := 0 }
      ∧ toolErrorContent badArgsCall.function.name "Invalid tool arguments: Unexpected token"
          = "Error executing " ++ badArgsCall.function.name ++ ": "
            ++ "Invalid tool arguments: Unexpected token"
      ∧ (chatWithTools envBadArgs [] demoTools).history
          = [] ++ [(accumulateStreamingResponse [badArgsChunk]).2.assistantMessage,
              { role := Role.tool,
                content := toolErrorContent badArgsCall.function.name
                  "Invalid tool arguments: Unexpected token",
                tool_call_id := some badArgsCall.id, timestamp := 0 },
              (accumulateStreamingResponse [demoContentChunk]).2.assistantMessage]
      ∧ toolResultEventFor envBadArgs demoTools badArgsCall
          = Event.toolExecutionResult badArgsCall.function.name badArgsCall.id true
      ∧ (chatWithTools envBadArgs [] demoTools).events
          = (accumulateStreamingResponse [badArgsChunk]).1
            ++ [Event.toolExecutionStart badArgsCall.function.name badArgsCall.id,
                Event.toolExecutionResult badArgsCall.function.name badArgsCall.id true]
            ++ (accumulateStreamingResponse [demoContentChunk]).1 ++ [Event.done]
      ∧ (∀ m', Event.error m' ∉ (chatWithTools envBadArgs [] demoTools).events)) :=
  ⟨⟨rfl, by decide, rfl, rfl, by decide⟩,
   c6_theorem envBadArgs [] demoTools badArgsCall
     "Invalid tool arguments: Unexpected token" [badArgsChunk] [demoContentChunk]
     rfl (by decide) rfl rfl (by decide)⟩

/-- C7: when the tool lookup and argument parsing succeed, the dispatch races
the provider against the fixed 30000 ms timer: a provider promise that never
settles, or settles only at or after 30000 ms, yields the timeout error whose
message states the timeout; a provider that resolves strictly before 30000 ms
has its result returned unchanged (and a provider rejection before the deadline
propagates unchanged); the loser of the race is merely abandoned — the model
contains no cancellation of the provider outcome. -/
theorem c7_theorem (tc : ToolCall) (tools : List MCPTool)
    (parse : String → Except String String) (prov : String → String → String → ProvOutcome)
    (tool : MCPTool) (payload : String)
    (hfind : tools.find? (fun t => t.name == tc.function.name) = some tool)
    (hparse : parse tc.function.arguments = Except.ok payload) :
    timeoutMessage = "Tool execution timeout after 30000ms"
    ∧ (prov tool.serverId tc.function.name payload = ProvOutcome.never →
        executeToolCallWithTimeout tc tools parse prov = Except.error timeoutMessage)
    ∧ (∀ t r, prov tool.serverId tc.function.name payload = ProvOutcome.resolves t r →
        (t < TOOL_EXECUTION_TIMEOUT →
          executeToolCallWithTimeout tc tools parse prov = Except.ok r)
        ∧ (TOOL_EXECUTION_TIMEOUT ≤ t →
          executeToolCallWithTimeout tc tools parse prov = Except.error timeoutMessage))
    ∧ (∀ t m, prov tool.serverId tc.function.name payload = ProvOutcome.rejects t m →
        (t < TOOL_EXECUTION_TIMEOUT →
          executeToolCallWithTimeout tc tools parse prov = Except.error m)
        ∧ (TOOL_EXECUTION_TIMEOUT ≤ t →
          executeToolCallWithTimeout tc tools parse prov = Except.error timeoutMessage)) := by
  refine ⟨by decide, ?_, ?_, ?_⟩
  · intro hnever
    simp [executeToolCallWithTimeout, executeToolCall, hfind, hparse, hnever]
  · intro t r hres
    constructor
    · intro hlt
      simp [executeToolCallWithTimeout, executeToolCall, hfind, hparse, hres, hlt]
    · intro hge
      simp [executeToolCallWithTimeout, executeToolCall, hfind, hparse, hres,
        Nat.not_lt.mpr hge]
  · intro t m hres
    constructor
    · intro hlt
      simp [executeToolCallWithTimeout, executeToolCall, hfind, hparse, hres, hlt]
    · intro hge
      simp [executeToolCallWithTimeout, executeToolCall, hfind, hparse, hres,
        Nat.not_lt.mpr hge]

/-- C7 witness: the demo catalog, a succeeding parse, and a provider resolving
at 5 ms satisfy the hypotheses; the conclusion holds there. -/
theorem c7_witness :
    (demoTools.find? (fun t => t.name == demoToolCall.function.name)
        = some { name := "f", serverId := "s1" }
      ∧ okParse demoToolCall.function.arguments = Except.ok "\x7b\x7d")
    ∧ (timeoutMessage = "Tool execution timeout after 30000ms"
      ∧ (okProv ({ name := "f", serverId := "s1" } : MCPTool).serverId
            demoToolCall.function.name "\x7b\x7d" = ProvOutcome.never →
          executeToolCallWithTimeout demoToolCall demoTools okParse okProv
            = Except.error timeoutMessage)
      ∧ (∀ t r, okProv ({ name := "f", serverId := "s1" } : MCPTool).serverId
            demoToolCall.function.name "\x7b\x7d" = ProvOutcome.resolves t r →
          (t < TOOL_EXECUTION_TIMEOUT →
            executeToolCallWithTimeout demoToolCall demoTools okParse okProv = Except.ok r)
          ∧ (TOOL_EXECUTION_TIMEOUT ≤ t →
            executeToolCallWithTimeout demoToolCall demoTools okParse okProv
              = Except.error timeoutMessage))
      ∧ (∀ t m, okProv ({ name := "f", serverId := "s1" } : MCPTool).serverId
            demoToolCall.function.name "\x7b\x7d" = ProvOutcome.rejects t m →
          (t < TOOL_EXECUTION_TIMEOUT →
            executeToolCallWithTimeout demoToolCall demoTools okParse okProv
              = Except.error m)
          ∧ (TOOL_EXECUTION_TIMEOUT ≤ t →
            executeToolCallWithTimeout demoToolCall demoTools okParse okProv
              = Except.error timeoutMessage))) :=
  ⟨⟨by decide, rfl⟩,
   c7_theorem demoToolCall demoTools okParse okProv { name := "f", serverId := "s1" }
     "\x7b\x7d" (by decide) rfl⟩

end MCPChat
